import Mathlib

/-!
# flyte-ldap: group search and DN extraction

A shallow embedding of `group/search.go` (the searcher and the extraction of
group names from distinguished names), of the client interface it drives, of
`ldap/client.go` (the client over the LDAP transport), of the handler of
`command/groups.go`, of the configuration loading of `main.go`, and of the Go
library functions they call (`strings.Split`, `strings.ToUpper`,
`strings.HasPrefix`, `strings.Replace`, `strconv.Atoi`, `strconv.ParseBool`,
byte slicing).

Go strings are byte sequences; they are modelled as lists of byte values.
A Go run-time panic (slice bounds out of range, nil dereference) is modelled
by `none` (for a function) or by `Outcome.panicked` (for `GetGroupsFor`).
-/

namespace FlyteLdap

/-! ## Go strings -/

/-- A Go `string`: a sequence of bytes. -/
abbrev GoString := List Nat

/-- Go `utf8.RuneError`, U+FFFD. -/
def RuneError : Nat := 0xFFFD

/-- Whether `b` is a UTF-8 continuation byte lying in `[lo, hi]`. -/
def inRange (lo hi b : Nat) : Bool := decide (lo ≤ b) && decide (b ≤ hi)

/-- Go `utf8.EncodeRune`: the UTF-8 encoding of a rune; surrogates and values
above U+10FFFF are encoded as `RuneError`. -/
def EncodeRune (r : Nat) : GoString :=
  if r ≤ 0x7F then [r]
  else if r ≤ 0x7FF then [0xC0 + r / 64, 0x80 + r % 64]
  else if r > 0x10FFFF ∨ (0xD800 ≤ r ∧ r ≤ 0xDFFF) then [0xEF, 0xBF, 0xBD]
  else if r ≤ 0xFFFF then [0xE0 + r / 4096, 0x80 + r / 64 % 64, 0x80 + r % 64]
  else [0xF0 + r / 262144, 0x80 + r / 4096 % 64, 0x80 + r / 64 % 64, 0x80 + r % 64]

/-- Go `utf8.DecodeRuneInString` on a non-empty string whose first byte is `b0`
and whose remaining bytes are `rest`: the rune and its width in bytes. An
invalid or truncated encoding gives `(RuneError, 1)`. -/
def DecodeRune (b0 : Nat) (rest : GoString) : Nat × Nat :=
  if b0 < 0x80 then (b0, 1)
  else if 0xC2 ≤ b0 ∧ b0 ≤ 0xDF then
    match rest with
    | b1 :: _ =>
      if inRange 0x80 0xBF b1 then ((b0 % 32) * 64 + b1 % 64, 2) else (RuneError, 1)
    | _ => (RuneError, 1)
  else if 0xE0 ≤ b0 ∧ b0 ≤ 0xEF then
    match rest with
    | b1 :: b2 :: _ =>
      if inRange (if b0 = 0xE0 then 0xA0 else 0x80) (if b0 = 0xED then 0x9F else 0xBF) b1
          && inRange 0x80 0xBF b2 then
        ((b0 % 16) * 4096 + (b1 % 64) * 64 + b2 % 64, 3)
      else (RuneError, 1)
    | _ => (RuneError, 1)
  else if 0xF0 ≤ b0 ∧ b0 ≤ 0xF4 then
    match rest with
    | b1 :: b2 :: b3 :: _ =>
      if inRange (if b0 = 0xF0 then 0x90 else 0x80) (if b0 = 0xF4 then 0x8F else 0xBF) b1
          && inRange 0x80 0xBF b2 && inRange 0x80 0xBF b3 then
        ((b0 % 8) * 262144 + (b1 % 64) * 4096 + (b2 % 64) * 64 + b3 % 64, 4)
      else (RuneError, 1)
    | _ => (RuneError, 1)
  else (RuneError, 1)

/-- The bytes of a string literal (its UTF-8 encoding), as Go stores it. -/
def bytes (s : String) : GoString := s.toList.flatMap (fun c => EncodeRune c.toNat)

/-- The upper case of an ASCII byte: `c -= 'a' - 'A'` when `'a' <= c <= 'z'`. -/
def upperByte (c : Nat) : Nat := if 0x61 ≤ c ∧ c ≤ 0x7A then c - 0x20 else c

/-- Go `unicode.ToUpper`: ASCII letters are handled directly; any other rune
goes through the library's case table (`unicode.To(unicode.UpperCase, r)`),
which is taken as the parameter `caseTable`. -/
def unicodeToUpper (caseTable : Nat → Nat) (r : Nat) : Nat :=
  if r ≤ 0x7F then upperByte r else caseTable r

/-- The loop of Go `strings.Map`: decode one rune, apply the mapping, append
its encoding; `skip` counts the remaining bytes of the rune just decoded. -/
def mapRunes (mapping : Nat → Nat) : Nat → GoString → GoString
  | _, [] => []
  | skip + 1, _ :: bs => mapRunes mapping skip bs
  | 0, b :: bs =>
    EncodeRune (mapping (DecodeRune b bs).1) ++ mapRunes mapping ((DecodeRune b bs).2 - 1) bs

/-- Go `strings.Map`. -/
def Map (mapping : Nat → Nat) (s : GoString) : GoString := mapRunes mapping 0 s

/-- Go `strings.ToUpper`: a string of ASCII bytes is upper-cased byte by byte;
any other string is mapped rune by rune through `unicode.ToUpper`. -/
def ToUpper (caseTable : Nat → Nat) (s : GoString) : GoString :=
  if s.all (fun c => decide (c < 0x80)) then s.map upperByte
  else Map (unicodeToUpper caseTable) s

/-- Go `strings.HasPrefix`. -/
def HasPrefix (s pre : GoString) : Bool := pre.isPrefixOf s

/-- Go `strings.Split(s, sep)` for a one-byte separator: the pieces of `s`
between the occurrences of `sep` (always at least one piece). -/
def Split (s : GoString) (sep : Nat) : List GoString :=
  match s with
  | [] => [[]]
  | c :: cs =>
    if c = sep then [] :: Split cs sep
    else
      match Split cs sep with
      | [] => [[c]]
      | w :: ws => (c :: w) :: ws

/-- The Go slice expression `v[n:]`: a run-time panic (`none`) when `n` exceeds
the length of `v`. -/
def sliceFrom (v : GoString) (n : Nat) : Option GoString :=
  if n ≤ v.length then some (v.drop n) else none

/-- The loop of Go `strings.Replace(s, old, new, -1)` for a non-empty `old`:
occurrences are replaced left to right without overlap; `skip` counts the
bytes of the occurrence just replaced that are still to be passed over. -/
def replaceLoop (old new : GoString) : Nat → GoString → GoString
  | _, [] => []
  | skip + 1, _ :: cs => replaceLoop old new skip cs
  | 0, c :: cs =>
    if old.isPrefixOf (c :: cs) then new ++ replaceLoop old new (old.length - 1) cs
    else c :: replaceLoop old new 0 cs

/-- Go `strings.Replace(s, old, new, -1)` for a non-empty `old`. -/
def Replace (s old new : GoString) : GoString := replaceLoop old new 0 s

/-! ## `gopkg.in/ldap.v2` result types -/

/-- The type `ldap.EntryAttribute`. -/
structure EntryAttribute where
  Name : GoString
  Values : List GoString
  ByteValues : List (List Nat)
deriving DecidableEq, Repr

/-- The type `ldap.Entry`; the attributes are pointers, `none` being `nil`. -/
structure Entry where
  DN : GoString
  Attributes : List (Option EntryAttribute)
deriving DecidableEq, Repr

/-- The type `ldap.SearchResult` (its `Controls`, which the program never reads,
are left out); the entries are pointers, `none` being `nil`. -/
structure SearchResult where
  Entries : List (Option Entry)
  Referrals : List GoString
deriving DecidableEq, Repr

/-! ## `group/search.go`: extraction -/

/-- The loop of `extractUserGroupFrom` over the comma-separated components. -/
def extractLoop (caseTable : Nat → Nat) (groupAttribute : GoString) :
    List GoString → Option GoString
  | [] => some []
  | v :: vs =>
    if HasPrefix (ToUpper caseTable v) (ToUpper caseTable groupAttribute ++ bytes "=") then
      sliceFrom v 3
    else extractLoop caseTable groupAttribute vs

/-- The function `extractUserGroupFrom` of `group/search.go`. -/
def extractUserGroupFrom (caseTable : Nat → Nat) (attributeValue groupAttribute : GoString) :
    Option GoString :=
  extractLoop caseTable groupAttribute (Split attributeValue 0x2C)

/-- The inner loop of `extractUserGroupsFrom`, over the values of one attribute. -/
def valuesLoop (caseTable : Nat → Nat) (groupAttribute : GoString) :
    List GoString → List GoString → Option (List GoString)
  | groups, [] => some groups
  | groups, attributeValue :: rest =>
    match extractUserGroupFrom caseTable attributeValue groupAttribute with
    | none => none
    | some userGroup =>
      if userGroup ≠ [] then valuesLoop caseTable groupAttribute (groups ++ [userGroup]) rest
      else valuesLoop caseTable groupAttribute groups rest

/-- The outer loop of `extractUserGroupsFrom`, over the attributes of the entry. -/
def attributesLoop (caseTable : Nat → Nat) (groupAttribute : GoString) :
    List GoString → List (Option EntryAttribute) → Option (List GoString)
  | groups, [] => some groups
  | _, none :: _ => none
  | groups, some attr :: rest =>
    match valuesLoop caseTable groupAttribute groups attr.Values with
    | none => none
    | some groups1 => attributesLoop caseTable groupAttribute groups1 rest

/-- The function `extractUserGroupsFrom` of `group/search.go`. -/
def extractUserGroupsFrom (caseTable : Nat → Nat) (searchResults : SearchResult)
    (groupAttribute : GoString) : Option (List GoString) :=
  match searchResults.Entries with
  | [] => some []
  | none :: _ => none
  | some entry :: _ => attributesLoop caseTable groupAttribute [] entry.Attributes

/-- The search result built in `TestExtractUserGroupsShouldExtractUserGroupsFromSearchResults`. -/
def testSearchResults : SearchResult :=
  { Entries := [some
      { DN := bytes "cn=dave-jones,OU=User Policies,OU=All Users,DC=FAE,DC=CORPORATE,"
        Attributes := [
          some { Name := bytes "memberOf"
                 Values := [
                   bytes "CN=London team,OU=Distribution Lists,DC=com",
                   bytes "OU=Distribution Lists,cn=New York team,DC=com,DC=EDFR,DC=DFER,DC=com",
                   bytes "OU=Dave DLs,DC=SWD,DC=DFER,DC=com,cN=Paris team",
                   bytes "Cn=Brussels team,OU=John DLs,DC=SWE,DC=DFER,DC=com"]
                 ByteValues := [] },
          some { Name := bytes "uid", Values := [bytes "fsdf56sdf54fs645f"], ByteValues := [] },
          some { Name := bytes "description", Values := [bytes "Something about Dave"],
                 ByteValues := [] }] }]
    Referrals := [] }

/-! ## `ldap/client.go`: the client interface, as `group/search.go` drives it -/

/-- A Go `error` value, identified by the text its `Error()` method returns. -/
structure Error where
  message : GoString
deriving DecidableEq, Repr

/-- The type `SearchRequest` of `ldap/client.go`. -/
structure SearchRequest where
  Attributes : List GoString
  BaseDn : GoString
  SearchFilter : GoString
  SearchTimeout : Int
deriving DecidableEq, Repr

/-- The interface `ldap.Client`, over the state `σ` of whatever implements it.
An `error` result is `none` for `nil`; the `*ldap.SearchResult` returned by
`Search` is `none` for `nil`. `ConnectTls` takes no argument here: the call
`searcher.client.ConnectTls()` in `group/search.go` passes none. -/
structure Client (σ : Type) where
  Connect : σ → Option Error × σ
  ConnectTls : σ → Option Error × σ
  Search : SearchRequest → σ → (Option SearchResult × Option Error) × σ
  Close : σ → σ

/-! ## `group/search.go`: the searcher -/

/-- The type `SearchDetails`. The first five fields are those declared in
`group/search.go`; `EnableTLS` and `InsecureSkipVerify` are the two further
fields `main.go` fills in its `SearchDetails` literal. -/
structure SearchDetails where
  Attributes : List GoString
  BaseDn : GoString
  SearchFilter : GoString
  GroupAttribute : GoString
  SearchTimeout : Int
  EnableTLS : Bool
  InsecureSkipVerify : Bool
deriving DecidableEq, Repr

/-- How a call of `GetGroupsFor` ends: it returns its pair of results (a `nil`
slice or error being `none`), or it panics. -/
inductive Outcome where
  | returned (groups : Option (List GoString)) (err : Option Error)
  | panicked
deriving DecidableEq, Repr

/-- The `ldap.SearchRequest` literal built in `GetGroupsFor`. -/
def searchRequestFor (sd : SearchDetails) (username : GoString) : SearchRequest :=
  { Attributes := sd.Attributes
    BaseDn := sd.BaseDn
    SearchFilter := Replace sd.SearchFilter (bytes "{username}") username
    SearchTimeout := sd.SearchTimeout }

/-- The method `searcher.GetGroupsFor` of `group/search.go`, run on a client
in state `s`. The result is the outcome of the call, the content of `*sd` when
the call ends (the method never assigns through `sd`), and the state the client
is left in. The deferred `Close` is registered only once `ConnectTls` has
succeeded, and then runs on every way out, a panic included. -/
def GetGroupsFor {σ : Type} (caseTable : Nat → Nat) (client : Client σ) (sd : SearchDetails)
    (username : GoString) (s : σ) : Outcome × SearchDetails × σ :=
  match client.ConnectTls s with
  | (some err, s1) => (Outcome.returned none (some err), sd, s1)
  | (none, s1) =>
    match client.Search (searchRequestFor sd username) s1 with
    | ((_, some err), s2) => (Outcome.returned none (some err), sd, client.Close s2)
    | ((none, none), s2) => (Outcome.panicked, sd, client.Close s2)
    | ((some searchResults, none), s2) =>
      match extractUserGroupsFrom caseTable searchResults sd.GroupAttribute with
      | none => (Outcome.panicked, sd, client.Close s2)
      | some groups => (Outcome.returned (some groups) none, sd, client.Close s2)

/-! ## Observing the calls made on a client -/

/-- One call of a method of the client. -/
inductive Call where
  | Connect
  | ConnectTls
  | Search (sr : SearchRequest)
  | Close
deriving DecidableEq, Repr

/-- The client `c` with a log in front of it: every call is appended to the log
and then handed to `c` unchanged (what the mock clients of the tests do). -/
def recording {σ : Type} (c : Client σ) : Client (List Call × σ) where
  Connect := fun p => ((c.Connect p.2).1, (p.1 ++ [Call.Connect], (c.Connect p.2).2))
  ConnectTls := fun p => ((c.ConnectTls p.2).1, (p.1 ++ [Call.ConnectTls], (c.ConnectTls p.2).2))
  Search := fun sr p => ((c.Search sr p.2).1, (p.1 ++ [Call.Search sr], (c.Search sr p.2).2))
  Close := fun p => (p.1 ++ [Call.Close], c.Close p.2)

/-- The calls one run of `GetGroupsFor` makes on the client `c` started in state `s`. -/
def callsOf {σ : Type} (caseTable : Nat → Nat) (c : Client σ) (sd : SearchDetails)
    (username : GoString) (s : σ) : List Call :=
  (GetGroupsFor caseTable (recording c) sd username ([], s)).2.2.1

/-- Whether a call opens the session (either connect method). -/
def Call.isConnect : Call → Bool
  | Call.Connect => true
  | Call.ConnectTls => true
  | _ => false

/-- Whether a call is a `Search`. -/
def Call.isSearch : Call → Bool
  | Call.Search _ => true
  | _ => false

/-- Whether a call is a `Close`. -/
def Call.isClose : Call → Bool
  | Call.Close => true
  | _ => false

/-- The requests of the `Search` calls of a log, in order. -/
def searchRequests : List Call → List SearchRequest
  | [] => []
  | Call.Search sr :: rest => sr :: searchRequests rest
  | _ :: rest => searchRequests rest

/-- A client without state whose connect and search results are fixed. -/
def fixedClient (connectErr : Option Error) (found : Option SearchResult)
    (searchErr : Option Error) : Client Unit where
  Connect := fun s => (connectErr, s)
  ConnectTls := fun s => (connectErr, s)
  Search := fun _ s => ((found, searchErr), s)
  Close := fun s => s

/-- The search details of the tests (`someSearchDetails`), with TLS switched off. -/
def someSearchDetails : SearchDetails :=
  { Attributes := [bytes "memberOf"]
    BaseDn := bytes "cn=blah-blah,OU=User Policies,OU=All Users,DC=FAE,DC=CORPORATE,"
    SearchFilter := bytes "(mailNickname={username})"
    GroupAttribute := bytes "cn"
    SearchTimeout := 20
    EnableTLS := false
    InsecureSkipVerify := false }

/-! ## `gopkg.in/ldap.v2`: the transport the client drives -/

/-- The constant `ldap.ScopeWholeSubtree` of `gopkg.in/ldap.v2`. -/
def ScopeWholeSubtree : Int := 2

/-- The constant `ldap.NeverDerefAliases` of `gopkg.in/ldap.v2`. -/
def NeverDerefAliases : Int := 0

/-- An `ldap.Control` value, identified by its control type. -/
structure Control where
  ControlType : GoString
deriving DecidableEq, Repr

/-- The type `ldap.SearchRequest` of `gopkg.in/ldap.v2`; a `nil` slice of
controls is the empty list. -/
structure LdapSearchRequest where
  BaseDN : GoString
  Scope : Int
  DerefAliases : Int
  SizeLimit : Int
  TimeLimit : Int
  TypesOnly : Bool
  Filter : GoString
  Attributes : List GoString
  Controls : List Control
deriving DecidableEq, Repr

/-- The type `tls.Config`, reduced to the one field the program sets. -/
structure TlsConfig where
  InsecureSkipVerify : Bool
deriving DecidableEq, Repr

/-- The transport: the functions `ldap.Dial` and `ldap.DialTLS` and the methods
`Bind`, `Search` and `Close` of the connections they return, over the state `ω`
of the outside world. `κ` is the type of the values the field `ldapSearcher`
can hold (a connection, or a mock in the tests). A dial gives either a
connection or an error; `Search` gives a Go pair, `none` being `nil`. -/
structure Ldap (ω κ : Type) where
  Dial : GoString → GoString → ω → Except Error κ × ω
  DialTLS : GoString → GoString → TlsConfig → ω → Except Error κ × ω
  Bind : κ → GoString → GoString → ω → Option Error × ω
  Search : κ → LdapSearchRequest → ω → (Option SearchResult × Option Error) × ω
  Close : κ → ω → ω

/-! ## `ldap/client.go` -/

/-- The type `ldapClient`; the field `ldapSearcher` is `none` while it is `nil`. -/
structure ldapClient (κ : Type) where
  bindUsername : GoString
  bindPassword : GoString
  ldapServerUrl : GoString
  ldapSearcher : Option κ
deriving DecidableEq, Repr

/-- The function `NewClient`. -/
def NewClient {κ : Type} (bindUsername bindPassword ldapServerUrl : GoString) : ldapClient κ :=
  { bindUsername := bindUsername
    bindPassword := bindPassword
    ldapServerUrl := ldapServerUrl
    ldapSearcher := none }

/-- The method `ldapClient.Connect`: the error returned, the client and the
world afterwards. -/
def ldapClient.Connect {ω κ : Type} (L : Ldap ω κ) (c : ldapClient κ) (w : ω) :
    Option Error × ldapClient κ × ω :=
  match L.Dial (bytes "tcp") c.ldapServerUrl w with
  | (Except.error err, w1) =>
    (some ⟨bytes "Cannot connect to LDAP: " ++ err.message⟩, c, w1)
  | (Except.ok ldapConn, w1) =>
    match L.Bind ldapConn c.bindUsername c.bindPassword w1 with
    | (some err, w2) =>
      (some ⟨bytes "Cannot bind to LDAP: " ++ err.message⟩, c, L.Close ldapConn w2)
    | (none, w2) => (none, { c with ldapSearcher := some ldapConn }, w2)

/-- The method `ldapClient.ConnectTls`. -/
def ldapClient.ConnectTls {ω κ : Type} (L : Ldap ω κ) (c : ldapClient κ)
    (insecureSkipVerify : Bool) (w : ω) : Option Error × ldapClient κ × ω :=
  match L.DialTLS (bytes "tcp") c.ldapServerUrl { InsecureSkipVerify := insecureSkipVerify } w with
  | (Except.error err, w1) =>
    (some ⟨bytes "Cannot connect to LDAP: " ++ err.message⟩, c, w1)
  | (Except.ok ldapConn, w1) =>
    match L.Bind ldapConn c.bindUsername c.bindPassword w1 with
    | (some err, w2) =>
      (some ⟨bytes "Cannot bind to LDAP: " ++ err.message⟩, c, L.Close ldapConn w2)
    | (none, w2) => (none, { c with ldapSearcher := some ldapConn }, w2)

/-- The `ldap.SearchRequest` literal built in `ldapClient.Search`. -/
def ldapSearchRequestFor (sr : SearchRequest) : LdapSearchRequest :=
  { BaseDN := sr.BaseDn
    Scope := ScopeWholeSubtree
    DerefAliases := NeverDerefAliases
    SizeLimit := 0
    TimeLimit := sr.SearchTimeout
    TypesOnly := false
    Filter := sr.SearchFilter
    Attributes := sr.Attributes
    Controls := [] }

/-- The method `ldapClient.Search`: the pair it returns and the world
afterwards, or `none` for the nil dereference when `ldapSearcher` is `nil`. -/
def ldapClient.Search {ω κ : Type} (L : Ldap ω κ) (c : ldapClient κ) (sr : SearchRequest)
    (w : ω) : Option ((Option SearchResult × Option Error) × ω) :=
  match c.ldapSearcher with
  | none => none
  | some searcher =>
    match L.Search searcher (ldapSearchRequestFor sr) w with
    | ((_, some err), w1) => some ((none, some ⟨bytes "LDAP group error: " ++ err.message⟩), w1)
    | ((searchResults, none), w1) => some ((searchResults, none), w1)

/-- The method `ldapClient.Close`, or `none` for the nil dereference when
`ldapSearcher` is `nil`. -/
def ldapClient.Close {ω κ : Type} (L : Ldap ω κ) (c : ldapClient κ) (w : ω) : Option ω :=
  match c.ldapSearcher with
  | none => none
  | some searcher => some (L.Close searcher w)

/-- One call made on the transport. -/
inductive LdapCall (κ : Type) where
  | Dial (network addr : GoString)
  | DialTLS (network addr : GoString) (config : TlsConfig)
  | Bind (conn : κ) (username password : GoString)
  | Search (conn : κ) (request : LdapSearchRequest)
  | Close (conn : κ)
deriving DecidableEq, Repr

/-- The transport `L` with a log in front of it: every call is appended to the
log and then handed to `L` unchanged. -/
def recordingLdap {ω κ : Type} (L : Ldap ω κ) : Ldap (List (LdapCall κ) × ω) κ where
  Dial := fun network addr p =>
    ((L.Dial network addr p.2).1, (p.1 ++ [LdapCall.Dial network addr], (L.Dial network addr p.2).2))
  DialTLS := fun network addr config p =>
    ((L.DialTLS network addr config p.2).1,
      (p.1 ++ [LdapCall.DialTLS network addr config], (L.DialTLS network addr config p.2).2))
  Bind := fun conn u pw p =>
    ((L.Bind conn u pw p.2).1, (p.1 ++ [LdapCall.Bind conn u pw], (L.Bind conn u pw p.2).2))
  Search := fun conn request p =>
    ((L.Search conn request p.2).1,
      (p.1 ++ [LdapCall.Search conn request], (L.Search conn request p.2).2))
  Close := fun conn p => (p.1 ++ [LdapCall.Close conn], L.Close conn p.2)

/-- A transport without state and with one connection, whose dial, bind and
search results are fixed. -/
def fixedLdap (dialErr bindErr : Option Error) (found : Option SearchResult)
    (searchErr : Option Error) : Ldap Unit Unit where
  Dial := fun _ _ w => (match dialErr with | some e => Except.error e | none => Except.ok (), w)
  DialTLS := fun _ _ _ w => (match dialErr with | some e => Except.error e | none => Except.ok (), w)
  Bind := fun _ _ _ w => (bindErr, w)
  Search := fun _ _ w => ((found, searchErr), w)
  Close := fun _ w => w

/-- The client of the tests of `ldap/client_test.go`. -/
def testClient : ldapClient Unit :=
  NewClient (bytes "cn=testy,dc=testers,dc=testz") (bytes "work123") (bytes "localhost:49456")

/-- The search request of the tests of `ldap/client_test.go`. -/
def testSearchRequest : SearchRequest :=
  { Attributes := [bytes "memberOf"]
    BaseDn := bytes "OU=User Policies,OU=All Users,DC=FAE,DC=CORPORATE"
    SearchFilter := bytes "(mailNickname=dave-jones)"
    SearchTimeout := 20 }

/-! ## `command/groups.go` -/

/-- The type `GetGroupsInput`. -/
structure GetGroupsInput where
  UserName : GoString
deriving DecidableEq, Repr

/-- The type `userGroupsPayload`; a `nil` slice of groups is `none`. -/
structure userGroupsPayload where
  Username : GoString
  UserGroups : Option (List GoString)
  ErrorText : GoString
deriving DecidableEq, Repr

/-- The type `flyte.EventDef`, reduced to its name (the program sets no other
field). -/
structure EventDef where
  Name : GoString
deriving DecidableEq, Repr

/-- The type `flyte.Event`, with the payload the handler puts in it. -/
structure Event where
  EventDef : EventDef
  Payload : userGroupsPayload
deriving DecidableEq, Repr

/-- The variable `getGroupsSuccessEventDef`. -/
def getGroupsSuccessEventDef : EventDef := { Name := bytes "GroupsRetrieved" }

/-- The variable `getGroupsErrorEventDef`. -/
def getGroupsErrorEventDef : EventDef := { Name := bytes "GroupsRetrievalError" }

/-- The function `flyte.NewFatalEvent` of the flyte client library: the event
named "FATAL" with the given payload. -/
def NewFatalEvent (payload : userGroupsPayload) : Event :=
  { EventDef := { Name := bytes "FATAL" }, Payload := payload }

/-- The function `NewGetGroupsErrorEvent`. -/
def NewGetGroupsErrorEvent (errorText username : GoString) : Event :=
  { EventDef := getGroupsErrorEventDef
    Payload := { Username := username, UserGroups := none, ErrorText := errorText } }

/-- The interface `group.Searcher`, over the state `ρ` of whatever implements it. -/
structure Searcher (ρ : Type) where
  GetGroupsFor : SearchDetails → GoString → ρ → Outcome × ρ

/-- The function `NewSearcher`: the searcher of `group/search.go` on top of a client. -/
def NewSearcher {σ : Type} (caseTable : Nat → Nat) (client : Client σ) : Searcher σ where
  GetGroupsFor := fun sd username s =>
    ((GetGroupsFor caseTable client sd username s).1,
      (GetGroupsFor caseTable client sd username s).2.2)

/-- The handler returned by `getGroupsHandler`, run on a searcher in state `s`:
the event returned (`none` when the searcher panicked) and the state the
searcher is left in. `unmarshal` is `json.Unmarshal` into a fresh
`GetGroupsInput`: the error it returns and the value decoded. The two
`logger.Debugf` calls are left out. -/
def getGroupsHandler {ρ : Type} (unmarshal : GoString → Option Error × GetGroupsInput)
    (searcher : Searcher ρ) (searchDetails : SearchDetails) (input : GoString) (s : ρ) :
    Option Event × ρ :=
  match unmarshal input with
  | (some err, _) =>
    (some (NewFatalEvent
      { Username := [], UserGroups := none
        ErrorText := bytes "Json unmarshalling error: " ++ err.message }), s)
  | (none, args) =>
    if args.UserName = [] then
      (some (NewGetGroupsErrorEvent (bytes "No Username provided.") (bytes "")), s)
    else
      match searcher.GetGroupsFor searchDetails args.UserName s with
      | (Outcome.panicked, s1) => (none, s1)
      | (Outcome.returned _ (some err), s1) =>
        (some (NewGetGroupsErrorEvent err.message args.UserName), s1)
      | (Outcome.returned userGroups none, s1) =>
        (some { EventDef := getGroupsSuccessEventDef
                Payload := { Username := args.UserName, UserGroups := userGroups
                             ErrorText := [] } }, s1)

/-- The searcher with a log in front of it: the arguments of every call are
appended to the log and the call is handed on unchanged. -/
def recordingSearcher {ρ : Type} (searcher : Searcher ρ) :
    Searcher (List (SearchDetails × GoString) × ρ) where
  GetGroupsFor := fun sd username p =>
    ((searcher.GetGroupsFor sd username p.2).1,
      (p.1 ++ [(sd, username)], (searcher.GetGroupsFor sd username p.2).2))

/-- A searcher without state that always ends the same way (the mock searcher
of the tests). -/
def fixedSearcher (outcome : Outcome) : Searcher Unit where
  GetGroupsFor := fun _ _ s => (outcome, s)

/-- A stand-in for `json.Unmarshal` that knows the inputs of the tests: the
empty object, the object with username "carlos", and anything else, which it
rejects. -/
def sampleUnmarshal (input : GoString) : Option Error × GetGroupsInput :=
  if input = bytes "\x7b\x7d" then (none, { UserName := [] })
  else if input = bytes "\x7b\"username\": \"carlos\"\x7d" then (none, { UserName := bytes "carlos" })
  else (some ⟨bytes "unexpected end of JSON input"⟩, { UserName := [] })

/-! ## `main.go`: loading the configuration -/

/-- Go `strconv.ParseBool`; `none` stands for the syntax error. -/
def ParseBool (str : GoString) : Option Bool :=
  if str = bytes "1" ∨ str = bytes "t" ∨ str = bytes "T" ∨ str = bytes "true"
      ∨ str = bytes "TRUE" ∨ str = bytes "True" then some true
  else if str = bytes "0" ∨ str = bytes "f" ∨ str = bytes "F" ∨ str = bytes "false"
      ∨ str = bytes "FALSE" ∨ str = bytes "False" then some false
  else none

/-- The value of a non-empty string of decimal digits read after `acc`; `none`
when a byte is not a digit. -/
def parseDigits : Nat → GoString → Option Nat
  | acc, [] => some acc
  | acc, ch :: rest =>
    if 0x30 ≤ ch ∧ ch ≤ 0x39 then parseDigits (acc * 10 + (ch - 0x30)) rest else none

/-- Go `strconv.Atoi` with a 64-bit `int`: an optional sign, then one or more
decimal digits, the value lying in the range of `int`; `none` stands for the
syntax or range error. -/
def Atoi (s : GoString) : Option Int :=
  match s with
  | [] => none
  | 0x2D :: digits =>
    if digits = [] then none
    else (parseDigits 0 digits).bind (fun n => if n ≤ 2 ^ 63 then some (-(n : Int)) else none)
  | 0x2B :: digits =>
    if digits = [] then none
    else (parseDigits 0 digits).bind (fun n => if n < 2 ^ 63 then some (n : Int) else none)
  | digits => (parseDigits 0 digits).bind (fun n => if n < 2 ^ 63 then some (n : Int) else none)

/-- Why the program stopped in `logger.Fatalf` while loading its configuration:
which of the four messages of `main.go` was logged, and about what. -/
inductive Fatal where
  | configValueMustBeSet (k : GoString)
  | timeoutNotAnInteger (v : GoString)
  | tlsFlagNotProvided (v : GoString)
  | insecureSkipVerifyNotProvided (v : GoString)
deriving DecidableEq, Repr

/-- The function `configVal`, reading the environment `env` (`getValueFor`
gives the empty string for a variable that is not set); `logger.Fatalf` ends
the program. -/
def configVal (env : GoString → GoString) (k : GoString) : Except Fatal GoString :=
  if env k = [] then Except.error (Fatal.configValueMustBeSet k) else Except.ok (env k)

/-- The function `optionalConfigVal`. -/
def optionalConfigVal (env : GoString → GoString) (k defaultVal : GoString) : GoString :=
  if env k = [] then defaultVal else env k

/-- What `main` has built when it reaches the pack definition: the arguments
given to `ldap.NewClient` and the search details. -/
structure Configuration where
  bindUsername : GoString
  bindPassword : GoString
  ldapServerUrl : GoString
  searchDetails : SearchDetails
deriving DecidableEq, Repr

/-- Lines 46 to 49 of `main`: the search timeout, 20 when the setting is not
set, and a fatal exit when the text is not an integer. -/
def searchTimeoutSetting (env : GoString → GoString) : Except Fatal Int :=
  match Atoi (optionalConfigVal env (bytes "SEARCH_TIMEOUT_IN_SECONDS") (bytes "20")) with
  | some n => Except.ok n
  | none =>
    match configVal env (bytes "SEARCH_TIMEOUT_IN_SECONDS") with
    | Except.error f => Except.error f
    | Except.ok v => Except.error (Fatal.timeoutNotAnInteger v)

/-- Lines 50 to 53 of `main`: the TLS flag, read with `configVal`. -/
def tlsEnabledSetting (env : GoString → GoString) : Except Fatal Bool :=
  match configVal env (bytes "ENABLE_TLS") with
  | Except.error f => Except.error f
  | Except.ok text =>
    match ParseBool text with
    | some b => Except.ok b
    | none =>
      match configVal env (bytes "ENABLE_TLS") with
      | Except.error f => Except.error f
      | Except.ok v => Except.error (Fatal.tlsFlagNotProvided v)

/-- Lines 54 to 57 of `main`: the skip-verify flag, read with `configVal`. -/
def insecureSkipVerifySetting (env : GoString → GoString) : Except Fatal Bool :=
  match configVal env (bytes "INSECURE_SKIP_VERIFY") with
  | Except.error f => Except.error f
  | Except.ok text =>
    match ParseBool text with
    | some b => Except.ok b
    | none =>
      match configVal env (bytes "INSECURE_SKIP_VERIFY") with
      | Except.error f => Except.error f
      | Except.ok v => Except.error (Fatal.insecureSkipVerifyNotProvided v)

/-- The first part of `main` (up to and including the `SearchDetails` literal):
the configuration read from the environment, or the reason for the fatal exit. -/
def loadConfiguration (env : GoString → GoString) : Except Fatal Configuration := do
  let searchTimeout ← searchTimeoutSetting env
  let tlsEnabledFlag ← tlsEnabledSetting env
  let insecureSkipVerify ← insecureSkipVerifySetting env
  let bindUsername ← configVal env (bytes "BIND_USERNAME")
  let bindPassword ← configVal env (bytes "BIND_PASSWORD")
  let ldapUrl ← configVal env (bytes "LDAP_URL")
  let attributes ← configVal env (bytes "ATTRIBUTES")
  let baseDn ← configVal env (bytes "BASE_DN")
  let searchFilter ← configVal env (bytes "SEARCH_FILTER")
  let groupAttribute ← configVal env (bytes "GROUP_ATTRIBUTE")
  pure
    { bindUsername := bindUsername
      bindPassword := bindPassword
      ldapServerUrl := ldapUrl
      searchDetails :=
        { Attributes := Split attributes 0x2C
          BaseDn := baseDn
          SearchFilter := searchFilter
          SearchTimeout := searchTimeout
          GroupAttribute := groupAttribute
          EnableTLS := tlsEnabledFlag
          InsecureSkipVerify := insecureSkipVerify } }

/-- The settings `main` reads with `configVal` before the pack definition. -/
def requiredSettings : List GoString :=
  [bytes "ENABLE_TLS", bytes "INSECURE_SKIP_VERIFY", bytes "BIND_USERNAME",
   bytes "BIND_PASSWORD", bytes "LDAP_URL", bytes "ATTRIBUTES", bytes "BASE_DN",
   bytes "SEARCH_FILTER", bytes "GROUP_ATTRIBUTE"]

/-- An environment in which every setting but the search timeout and the
skip-verify flag is set. -/
def sampleEnvironment (k : GoString) : GoString :=
  if k = bytes "ENABLE_TLS" then bytes "true"
  else if k = bytes "BIND_USERNAME" then bytes "cn=testy,dc=testers,dc=testz"
  else if k = bytes "BIND_PASSWORD" then bytes "work123"
  else if k = bytes "LDAP_URL" then bytes "my.ldap.com:123"
  else if k = bytes "ATTRIBUTES" then bytes "memberOf,uid"
  else if k = bytes "BASE_DN" then bytes "DC=FAE,DC=CORPORATE"
  else if k = bytes "SEARCH_FILTER" then bytes "(mailNickname={username})"
  else if k = bytes "GROUP_ATTRIBUTE" then bytes "cn"
  else []

/-- The environment `sampleEnvironment` with the skip-verify flag set as well. -/
def fullEnvironment (k : GoString) : GoString :=
  if k = bytes "INSECURE_SKIP_VERIFY" then bytes "false" else sampleEnvironment k

/-! ## Specification-side notions -/

/-- All the results of a list of computations that may panic, or `none` when
one of them panicked. -/
def allReturned {α : Type} : List (Option α) → Option (List α)
  | [] => some []
  | none :: _ => none
  | some x :: xs => (allReturned xs).map (fun rest => x :: rest)

/-- Specification side: every value of every attribute of the first entry, in
attribute order then value order; the empty list when there is no entry, and
`none` when a `nil` pointer stands in the way. -/
def valuesOfFirstEntry (r : SearchResult) : Option (List GoString) :=
  match r.Entries with
  | [] => some []
  | none :: _ => none
  | some entry :: _ =>
    (allReturned entry.Attributes).map (fun attrs => attrs.flatMap (fun a => a.Values))

/-- Specification side: the component begins with the key, compared without
regard to (ASCII) letter case, followed by "=". -/
def beginsWithKey (key comp : GoString) : Prop :=
  ∃ k1 val : GoString, comp = k1 ++ 0x3D :: val ∧ k1.map upperByte = key.map upperByte

/-- Two entries of Go's case table (`unicode.CaseRanges`): U+0131 (dotless i)
has upper case "I" and U+017F (long s) has upper case "S"; these are the
non-ASCII runes whose upper case is an ASCII letter. Other runes are left as
they are here. -/
def caseTableSample (r : Nat) : Nat :=
  if r = 0x131 then 0x49 else if r = 0x17F then 0x53 else r

/-! ## Lemmas: the loops of `extractUserGroupsFrom` -/

theorem allReturned_append {α : Type} (xs ys : List (Option α)) :
    allReturned (xs ++ ys)
      = (allReturned xs).bind (fun a => (allReturned ys).map (fun b => a ++ b)) := by
  induction xs with
  | nil => cases h : allReturned ys <;> simp [allReturned, h]
  | cons x xs ih =>
    cases x with
    | none => simp [allReturned]
    | some x =>
      show (allReturned (xs ++ ys)).map (fun rest => x :: rest) = _
      rw [ih]
      simp only [allReturned]
      cases allReturned xs <;> cases allReturned ys <;> simp

theorem valuesLoop_eq (t : Nat → Nat) (k : GoString) (vs : List GoString) :
    ∀ groups : List GoString, valuesLoop t k groups vs
      = (allReturned (vs.map (fun v => extractUserGroupFrom t v k))).map
          (fun gs => groups ++ gs.filter (fun g => decide (g ≠ []))) := by
  induction vs with
  | nil => intro groups; simp [valuesLoop, allReturned]
  | cons v vs ih =>
    intro groups
    simp only [valuesLoop, List.map_cons]
    cases h : extractUserGroupFrom t v k with
    | none => simp [allReturned]
    | some g =>
      simp only [allReturned]
      by_cases hg : g = []
      · simp only [hg, ne_eq, not_true_eq_false, if_false, ih]
        cases allReturned (vs.map (fun v => extractUserGroupFrom t v k)) <;> simp
      · simp only [ne_eq, hg, not_false_eq_true, if_true, ih]
        cases allReturned (vs.map (fun v => extractUserGroupFrom t v k)) <;> simp [hg]

theorem attributesLoop_eq (t : Nat → Nat) (k : GoString) (attrs : List (Option EntryAttribute)) :
    ∀ groups : List GoString, attributesLoop t k groups attrs
      = (allReturned attrs).bind (fun as =>
          (allReturned ((as.flatMap (fun a => a.Values)).map
            (fun v => extractUserGroupFrom t v k))).map
            (fun gs => groups ++ gs.filter (fun g => decide (g ≠ [])))) := by
  induction attrs with
  | nil => intro groups; simp [attributesLoop, allReturned]
  | cons a attrs ih =>
    intro groups
    cases a with
    | none => simp [attributesLoop, allReturned]
    | some a =>
      simp only [attributesLoop, allReturned, valuesLoop_eq]
      cases h1 : allReturned (a.Values.map (fun v => extractUserGroupFrom t v k)) with
      | none =>
        cases h2 : allReturned attrs with
        | none => simp
        | some as => simp [List.flatMap_cons, allReturned_append, h1]
      | some gs1 =>
        simp only [Option.map_some', ih]
        cases h2 : allReturned attrs with
        | none => simp
        | some as =>
          simp only [Option.some_bind, Option.map_some', List.flatMap_cons, List.map_append,
            allReturned_append, h1]
          cases allReturned ((as.flatMap (fun a => a.Values)).map
            (fun v => extractUserGroupFrom t v k)) <;> simp [List.append_assoc]

/-! ## Lemmas: the calls of `GetGroupsFor` -/

theorem callsOf_eq {σ : Type} (t : Nat → Nat) (c : Client σ) (sd : SearchDetails)
    (username : GoString) (s : σ) :
    callsOf t c sd username s
      = if (c.ConnectTls s).1.isSome then [Call.ConnectTls]
        else [Call.ConnectTls, Call.Search (searchRequestFor sd username), Call.Close] := by
  unfold callsOf GetGroupsFor
  simp only [recording, List.nil_append]
  rcases h1 : c.ConnectTls s with ⟨e1, s1⟩
  cases e1 with
  | some e => simp
  | none =>
    simp only [Option.isSome_none, Bool.false_eq_true, if_false]
    rcases h2 : c.Search (searchRequestFor sd username) s1 with ⟨⟨r, e2⟩, s2⟩
    cases e2 with
    | some e => simp
    | none =>
      cases r with
      | none => simp
      | some r =>
        simp only
        cases extractUserGroupsFrom t r sd.GroupAttribute <;> simp

/-- Putting the log in front of a client changes neither the outcome nor the
state the client ends in. -/
theorem recording_transparent {σ : Type} (t : Nat → Nat) (c : Client σ) (sd : SearchDetails)
    (username : GoString) (s : σ) (log : List Call) :
    (GetGroupsFor t (recording c) sd username (log, s)).1 = (GetGroupsFor t c sd username s).1
    ∧ (GetGroupsFor t (recording c) sd username (log, s)).2.2.2
        = (GetGroupsFor t c sd username s).2.2 := by
  unfold GetGroupsFor
  simp only [recording]
  rcases h1 : c.ConnectTls s with ⟨e1, s1⟩
  cases e1 with
  | some e => simp
  | none =>
    simp only
    rcases h2 : c.Search (searchRequestFor sd username) s1 with ⟨⟨r, e2⟩, s2⟩
    cases e2 with
    | some e => simp
    | none =>
      cases r with
      | none => simp
      | some r =>
        simp only
        cases extractUserGroupsFrom t r sd.GroupAttribute <;> simp

/-! ## Lemmas: `strings.Replace` -/

theorem replaceLoop_skip (old new : GoString) (xs ys : GoString) :
    replaceLoop old new xs.length (xs ++ ys) = replaceLoop old new 0 ys := by
  induction xs with
  | nil => rfl
  | cons x xs ih => simpa [replaceLoop] using ih

theorem replaceLoop_cons_zero (old new : GoString) (c : Nat) (cs : GoString) :
    replaceLoop old new 0 (c :: cs)
      = if old.isPrefixOf (c :: cs) then new ++ replaceLoop old new (old.length - 1) cs
        else c :: replaceLoop old new 0 cs := rfl

theorem replaceLoop_of_not_infix (old new : GoString) (s : GoString)
    (h : ¬ old <:+: s) : replaceLoop old new 0 s = s := by
  induction s with
  | nil => rfl
  | cons c cs ih =>
    have hp : old.isPrefixOf (c :: cs) = false := by
      cases hb : old.isPrefixOf (c :: cs) with
      | false => rfl
      | true => exact absurd (List.isPrefixOf_iff_prefix.mp hb).isInfix h
    have hcs : ¬ old <:+: cs := fun hi => h (hi.trans (List.suffix_cons c cs).isInfix)
    simp [replaceLoop, hp, ih hcs]

theorem not_prefix_behind_segment (h : Nat) (u pre rest : GoString) (hu : h ∉ u)
    (hpre : ¬ (h :: u) <:+: pre) (hne : pre ≠ []) :
    ¬ (h :: u) <+: pre ++ ((h :: u) ++ rest) := by
  intro hp
  rcases Nat.le_total (h :: u).length pre.length with hle | hle
  · exact hpre ((List.prefix_of_prefix_length_le hp (List.prefix_append _ _) hle).isInfix)
  · have hpt : pre <+: h :: u :=
      List.prefix_of_prefix_length_le (List.prefix_append _ _) hp hle
    obtain ⟨t2, ht2⟩ := hpt
    cases pre with
    | nil => exact hne rfl
    | cons c pre1 =>
      simp only [List.cons_append, List.cons.injEq] at ht2
      obtain ⟨hc, hu2⟩ := ht2
      -- the occurrence continues with t2, which is a prefix of what follows pre
      rw [← hu2] at hp hu
      subst hc
      have hp2 : t2 <+: c :: (pre1 ++ (t2 ++ rest)) := by
        have := hp
        simp only [List.cons_append, List.append_assoc] at this
        have h3 := (List.prefix_cons_inj c).mp this
        exact (List.prefix_append_right_inj pre1).mp h3
      cases t2 with
      | nil =>
        apply hpre
        rw [← hu2, List.append_nil]
      | cons d t3 =>
        have hd : d = c := by
          have := List.cons_prefix_cons.mp hp2
          exact this.1
        apply hu
        simp [hd]

theorem replaceLoop_segment (h : Nat) (u new pre rest : GoString) (hu : h ∉ u)
    (hpre : ¬ (h :: u) <:+: pre) :
    replaceLoop (h :: u) new 0 (pre ++ ((h :: u) ++ rest))
      = pre ++ (new ++ replaceLoop (h :: u) new 0 rest) := by
  induction pre with
  | nil =>
    have hp : (h :: u).isPrefixOf (h :: (u ++ rest)) = true :=
      List.isPrefixOf_iff_prefix.mpr (List.prefix_append (h :: u) rest)
    rw [List.nil_append, List.cons_append, replaceLoop_cons_zero, if_pos hp, List.length_cons,
      Nat.add_sub_cancel, replaceLoop_skip, List.nil_append]
  | cons c cs ih =>
    have hp : (h :: u).isPrefixOf (c :: (cs ++ ((h :: u) ++ rest))) = false := by
      cases hb : (h :: u).isPrefixOf (c :: (cs ++ ((h :: u) ++ rest))) with
      | false => rfl
      | true =>
        exact absurd (List.isPrefixOf_iff_prefix.mp hb)
          (not_prefix_behind_segment h u (c :: cs) rest hu hpre (List.cons_ne_nil c cs))
    have hcs : ¬ (h :: u) <:+: cs := fun hi => hpre (hi.trans (List.suffix_cons c cs).isInfix)
    rw [List.cons_append, replaceLoop_cons_zero, if_neg (by rw [hp]; exact Bool.false_ne_true),
      ih hcs]
    rfl

theorem intercalate_cons_cons (sep x y : GoString) (ys : List GoString) :
    List.intercalate sep (x :: y :: ys) = x ++ (sep ++ List.intercalate sep (y :: ys)) := by
  simp [List.intercalate, List.intersperse]

theorem Replace_intercalate (h : Nat) (u new : GoString) (hu : h ∉ u) (segs : List GoString)
    (hfree : ∀ seg ∈ segs, ¬ (h :: u) <:+: seg) :
    Replace (List.intercalate (h :: u) segs) (h :: u) new = List.intercalate new segs := by
  unfold Replace
  induction segs with
  | nil => rfl
  | cons x xs ih =>
    cases xs with
    | nil =>
      have : List.intercalate (h :: u) [x] = x := by simp [List.intercalate]
      rw [this, replaceLoop_of_not_infix _ _ _ (hfree x (List.mem_singleton_self x))]
      simp [List.intercalate]
    | cons y ys =>
      rw [intercalate_cons_cons, intercalate_cons_cons,
        replaceLoop_segment h u new x _ hu (hfree x (List.mem_cons_self x _)),
        ih (fun seg hs => hfree seg (List.mem_cons_of_mem x hs))]

theorem exists_segments (old : GoString) (hold : old ≠ []) :
    ∀ (n : Nat) (s : GoString), s.length ≤ n →
      ∃ segs : List GoString, segs ≠ [] ∧ List.intercalate old segs = s
        ∧ ∀ seg ∈ segs, ¬ old <:+: seg := by
  intro n
  induction n with
  | zero =>
    intro s hs
    have : s = [] := List.length_eq_zero.mp (Nat.le_zero.mp hs)
    subst this
    refine ⟨[[]], by simp, by simp [List.intercalate], ?_⟩
    intro seg hseg
    rw [List.mem_singleton.mp hseg]
    simpa using hold
  | succ n ih =>
    intro s hs
    by_cases hp : old <+: s
    · obtain ⟨rest, hrest⟩ := hp
      have hlen : rest.length ≤ n := by
        have h1 : 0 < old.length := List.length_pos.mpr hold
        have h2 : s.length = old.length + rest.length := by rw [← hrest, List.length_append]
        omega
      obtain ⟨segs, hne, hj, hfree⟩ := ih rest hlen
      cases segs with
      | nil => exact absurd rfl hne
      | cons y ys =>
        refine ⟨[] :: y :: ys, by simp, ?_, ?_⟩
        · rw [intercalate_cons_cons, hj, List.nil_append, hrest]
        · intro seg hseg
          rcases List.mem_cons.mp hseg with h0 | h1
          · rw [h0]; simpa using hold
          · exact hfree seg h1
    · cases s with
      | nil =>
        refine ⟨[[]], by simp, by simp [List.intercalate], ?_⟩
        intro seg hseg
        rw [List.mem_singleton.mp hseg]
        simpa using hold
      | cons c cs =>
        obtain ⟨segs, hne, hj, hfree⟩ := ih cs (by simpa using hs)
        cases segs with
        | nil => exact absurd rfl hne
        | cons y ys =>
          have hs_eq : List.intercalate old ((c :: y) :: ys) = c :: cs := by
            cases ys with
            | nil =>
              have : List.intercalate old [y] = y := by simp [List.intercalate]
              rw [this] at hj
              simp [List.intercalate, hj]
            | cons z zs =>
              rw [intercalate_cons_cons] at hj ⊢
              simp [hj]
          refine ⟨(c :: y) :: ys, by simp, hs_eq, ?_⟩
          intro seg hseg
          rcases List.mem_cons.mp hseg with h0 | h1
          · rw [h0]
            intro hinf
            rcases List.infix_cons_iff.mp hinf with hpre | hin
            · apply hp
              rw [← hs_eq]
              cases ys with
              | nil =>
                have : List.intercalate old [c :: y] = c :: y := by simp [List.intercalate]
                rw [this]; exact hpre
              | cons z zs =>
                rw [intercalate_cons_cons]
                exact hpre.trans (List.prefix_append _ _)
            · exact hfree y (List.mem_cons_self y ys) hin
          · exact hfree seg (List.mem_cons_of_mem y h1)


/-! ## Lemmas: upper-casing, matching and slicing -/

theorem upperByte_le (c : Nat) : upperByte c ≤ c := by
  unfold upperByte; split <;> omega

theorem upperByte_eq_equals {c : Nat} (h : upperByte c = 0x3D) : c = 0x3D := by
  unfold upperByte at h; split at h <;> omega

theorem ToUpper_ascii (t : Nat → Nat) (s : GoString) (hs : ∀ x ∈ s, x < 0x80) :
    ToUpper t s = s.map upperByte := by
  unfold ToUpper
  rw [if_pos]
  simpa [List.all_eq_true] using hs

theorem EncodeRune_ascii_head (r e0 : Nat) (es : GoString) (h : EncodeRune r = e0 :: es)
    (h0 : e0 < 0x80) : es = [] := by
  unfold EncodeRune at h
  split_ifs at h <;> simp only [List.cons.injEq] at h <;> first | omega | exact h.2.symm

theorem EncodeRune_ne_nil (r : Nat) : EncodeRune r ≠ [] := by
  unfold EncodeRune
  split_ifs <;> simp

theorem ascii_prefix_of_mapRunes (f : Nat → Nat) :
    ∀ (v : GoString) (skip : Nat) (p : GoString), (∀ x ∈ p, x < 0x80) →
      p <+: mapRunes f skip v → p.length ≤ v.length := by
  intro v
  induction v with
  | nil =>
    intro skip p _ hp
    have : mapRunes f skip [] = [] := by cases skip <;> rfl
    rw [this] at hp
    simp [List.prefix_nil.mp hp]
  | cons b bs ih =>
    intro skip p hascii hp
    cases skip with
    | succ k =>
      have h1 : mapRunes f (k + 1) (b :: bs) = mapRunes f k bs := rfl
      rw [h1] at hp
      have := ih k p hascii hp
      simp only [List.length_cons]
      omega
    | zero =>
      have h1 : mapRunes f 0 (b :: bs)
          = EncodeRune (f (DecodeRune b bs).1) ++ mapRunes f ((DecodeRune b bs).2 - 1) bs := rfl
      rw [h1] at hp
      cases p with
      | nil => simp
      | cons x p1 =>
        cases he : EncodeRune (f (DecodeRune b bs).1) with
        | nil => exact absurd he (EncodeRune_ne_nil _)
        | cons e0 es =>
          rw [he, List.cons_append] at hp
          obtain ⟨hx, hp1⟩ := List.cons_prefix_cons.mp hp
          have hes : es = [] :=
            EncodeRune_ascii_head _ e0 es he (hx ▸ hascii x (List.mem_cons_self x p1))
          rw [hes, List.nil_append] at hp1
          have := ih _ p1 (fun y hy => hascii y (List.mem_cons_of_mem x hy)) hp1
          simp only [List.length_cons]
          omega

/-- A component that matches a key of two or more ASCII bytes is at least three
bytes long. -/
theorem matching_component_length (t : Nat → Nat) (key v : GoString)
    (hk : ∀ x ∈ key, x < 0x80) (hlen : 2 ≤ key.length)
    (hm : HasPrefix (ToUpper t v) (ToUpper t key ++ bytes "=") = true) : 3 ≤ v.length := by
  have hp : ToUpper t key ++ bytes "=" <+: ToUpper t v := List.isPrefixOf_iff_prefix.mp hm
  rw [ToUpper_ascii t key hk] at hp
  have hpl : (key.map upperByte ++ bytes "=").length = key.length + 1 := by
    rw [List.length_append, List.length_map]; rfl
  have hpa : ∀ x ∈ key.map upperByte ++ bytes "=", x < 0x80 := by
    intro x hx
    rcases List.mem_append.mp hx with h1 | h2
    · obtain ⟨y, hy, hxy⟩ := List.mem_map.mp h1
      have := hk y hy
      have := upperByte_le y
      omega
    · have : x = 0x3D := by
        have h3 : bytes "=" = [0x3D] := rfl
        rw [h3] at h2
        exact List.mem_singleton.mp h2
      omega
  by_cases hv : v.all (fun c => decide (c < 0x80)) = true
  · have hvu : ToUpper t v = v.map upperByte := by unfold ToUpper; rw [if_pos hv]
    rw [hvu] at hp
    have := hp.length_le
    rw [hpl, List.length_map] at this
    omega
  · have hvu : ToUpper t v = Map (unicodeToUpper t) v := by unfold ToUpper; rw [if_neg hv]
    rw [hvu] at hp
    have := ascii_prefix_of_mapRunes (unicodeToUpper t) v 0 _ hpa hp
    rw [hpl] at this
    omega

theorem extractLoop_returns (t : Nat → Nat) (key : GoString)
    (hk : ∀ x ∈ key, x < 0x80) (hlen : 2 ≤ key.length) :
    ∀ comps : List GoString, ∃ g, extractLoop t key comps = some g := by
  intro comps
  induction comps with
  | nil => exact ⟨[], rfl⟩
  | cons v vs ih =>
    unfold extractLoop
    by_cases hm : HasPrefix (ToUpper t v) (ToUpper t key ++ bytes "=") = true
    · rw [if_pos hm]
      have := matching_component_length t key v hk hlen hm
      exact ⟨v.drop 3, by unfold sliceFrom; rw [if_pos this]⟩
    · rw [if_neg hm]
      exact ih

/-- For a key of two or more ASCII bytes, `extractUserGroupFrom` returns (no
slice runs out of range) on every attribute value. -/
theorem extractUserGroupFrom_returns (t : Nat → Nat) (key : GoString)
    (hk : ∀ x ∈ key, x < 0x80) (hlen : 2 ≤ key.length) (v : GoString) :
    ∃ g, extractUserGroupFrom t v key = some g :=
  extractLoop_returns t key hk hlen _

theorem allReturned_of_all_return {α β : Type} (f : α → Option β) (h : ∀ a, ∃ b, f a = some b) :
    ∀ xs : List α, ∃ ys, allReturned (xs.map f) = some ys := by
  intro xs
  induction xs with
  | nil => exact ⟨[], rfl⟩
  | cons x xs ih =>
    obtain ⟨b, hb⟩ := h x
    obtain ⟨ys, hys⟩ := ih
    exact ⟨b :: ys, by simp [allReturned, hb, hys]⟩

theorem mem_of_mem_Split (sep : Nat) : ∀ (v c : GoString), c ∈ Split v sep → ∀ x ∈ c, x ∈ v := by
  intro v
  induction v with
  | nil =>
    intro c hc x hx
    have : c = [] := by simpa [Split] using hc
    rw [this] at hx
    exact absurd hx (List.not_mem_nil x)
  | cons b bs ih =>
    intro c hc x hx
    unfold Split at hc
    by_cases hb : b = sep
    · rw [if_pos hb] at hc
      rcases List.mem_cons.mp hc with h0 | h1
      · rw [h0] at hx; exact absurd hx (List.not_mem_nil x)
      · exact List.mem_cons_of_mem b (ih c h1 x hx)
    · rw [if_neg hb] at hc
      cases hs : Split bs sep with
      | nil =>
        rw [hs] at hc
        have : c = [b] := by simpa using hc
        rw [this] at hx
        rw [List.mem_singleton.mp hx]
        exact List.mem_cons_self b bs
      | cons w ws =>
        rw [hs] at hc
        rcases List.mem_cons.mp hc with h0 | h1
        · rw [h0] at hx
          rcases List.mem_cons.mp hx with hxb | hxw
          · rw [hxb]; exact List.mem_cons_self b bs
          · exact List.mem_cons_of_mem b (ih w (by rw [hs]; exact List.mem_cons_self w ws) x hxw)
        · exact List.mem_cons_of_mem b
            (ih c (by rw [hs]; exact List.mem_cons_of_mem w h1) x hx)

theorem hasPrefix_ascii_iff (t : Nat → Nat) (key comp : GoString)
    (hk : ∀ x ∈ key, x < 0x80) (hc : ∀ x ∈ comp, x < 0x80) :
    HasPrefix (ToUpper t comp) (ToUpper t key ++ bytes "=") = true ↔ beginsWithKey key comp := by
  have h3 : bytes "=" = [0x3D] := rfl
  unfold HasPrefix beginsWithKey
  rw [List.isPrefixOf_iff_prefix, ToUpper_ascii t key hk, ToUpper_ascii t comp hc, h3]
  constructor
  · rintro ⟨rest, hrest⟩
    rw [List.append_assoc] at hrest
    obtain ⟨l1, l2, hcomp, hl1, hl2⟩ := List.map_eq_append_iff.mp hrest.symm
    cases l2 with
    | nil => simp at hl2
    | cons c val =>
      simp only [List.map_cons, List.singleton_append, List.cons.injEq] at hl2
      exact ⟨l1, val, by rw [hcomp, upperByte_eq_equals hl2.1], hl1⟩
  · rintro ⟨k1, val, hcomp, hk1⟩
    refine ⟨val.map upperByte, ?_⟩
    rw [hcomp, List.map_append, hk1, List.map_cons, List.append_assoc]
    rfl

/-- On ASCII values and a key of two ASCII bytes the extraction does what is
intended: the text after "key=" of the leftmost matching component, in its
original case, and the empty string when no component matches. -/
theorem extractUserGroupFrom_ascii (t : Nat → Nat) (key v : GoString)
    (hk : ∀ x ∈ key, x < 0x80) (hk2 : key.length = 2) (hv : ∀ x ∈ v, x < 0x80) :
    (∀ (pre post : List GoString) (k1 val : GoString),
        Split v 0x2C = pre ++ (k1 ++ 0x3D :: val) :: post →
        k1.map upperByte = key.map upperByte →
        (∀ c ∈ pre, ¬ beginsWithKey key c) →
        extractUserGroupFrom t v key = some val)
    ∧ ((∀ c ∈ Split v 0x2C, ¬ beginsWithKey key c) → extractUserGroupFrom t v key = some []) := by
  have hcomp : ∀ c ∈ Split v 0x2C, ∀ x ∈ c, x < 0x80 :=
    fun c hc x hx => hv x (mem_of_mem_Split 0x2C v c hc x hx)
  have hskip : ∀ (pre rest : List GoString), (∀ c ∈ pre, ∀ x ∈ c, x < 0x80) →
      (∀ c ∈ pre, ¬ beginsWithKey key c) →
      extractLoop t key (pre ++ rest) = extractLoop t key rest := by
    intro pre rest
    induction pre with
    | nil => intro _ _; rfl
    | cons c cs ih =>
      intro ha hn
      have hno : ¬ HasPrefix (ToUpper t c) (ToUpper t key ++ bytes "=") = true :=
        fun hm => hn c (List.mem_cons_self c cs)
          ((hasPrefix_ascii_iff t key c hk (ha c (List.mem_cons_self c cs))).mp hm)
      rw [List.cons_append, extractLoop, if_neg hno]
      exact ih (fun d hd => ha d (List.mem_cons_of_mem c hd))
        (fun d hd => hn d (List.mem_cons_of_mem c hd))
  constructor
  · intro pre post k1 val hsplit hk1 hpre
    unfold extractUserGroupFrom
    rw [hsplit] at hcomp ⊢
    rw [hskip pre _ (fun c hc => hcomp c (List.mem_append_left _ hc)) hpre]
    have hca : ∀ x ∈ k1 ++ 0x3D :: val, x < 0x80 :=
      hcomp _ (List.mem_append_right _ (List.mem_cons_self _ _))
    have hm : HasPrefix (ToUpper t (k1 ++ 0x3D :: val)) (ToUpper t key ++ bytes "=") = true :=
      (hasPrefix_ascii_iff t key _ hk hca).mpr ⟨k1, val, rfl, hk1⟩
    have hk1len : k1.length = 2 := by
      have := congrArg List.length hk1
      rw [List.length_map, List.length_map] at this
      omega
    rw [extractLoop, if_pos hm]
    unfold sliceFrom
    rw [if_pos (by rw [List.length_append, hk1len, List.length_cons]; omega)]
    have : (k1 ++ [0x3D]).length = 3 := by rw [List.length_append, hk1len]; rfl
    rw [show k1 ++ 0x3D :: val = (k1 ++ [0x3D]) ++ val by simp, ← this, List.drop_left]
  · intro hnone
    unfold extractUserGroupFrom
    have := hskip (Split v 0x2C) [] hcomp hnone
    rw [List.append_nil] at this
    rw [this]
    rfl

/-! ## The claims -/

/-- C1: `extractUserGroupsFrom` returns exactly the non-empty results of
`extractUserGroupFrom` over every value of every attribute of the first entry,
in attribute order then value order, duplicates kept, whatever the attributes
are called (it panics exactly when one of those extractions panics or a `nil`
pointer is met, which for a key of two or more ASCII bytes and a result without
`nil` pointers never happens); on the record of the test with key "cn" the
result is "London team", "New York team", "Paris team", "Brussels team". -/
theorem extractUserGroupsFrom_collects_nonempty_extractions :
    (∀ (t : Nat → Nat) (r : SearchResult) (k : GoString),
      extractUserGroupsFrom t r k
        = (valuesOfFirstEntry r).bind (fun vs =>
            (allReturned (vs.map (fun v => extractUserGroupFrom t v k))).map
              (List.filter (fun g => decide (g ≠ [])))))
    ∧ (∀ (t : Nat → Nat) (r : SearchResult) (k : GoString) (vs : List GoString),
        (∀ x ∈ k, x < 0x80) → 2 ≤ k.length → valuesOfFirstEntry r = some vs →
        ∃ gs : List GoString,
          allReturned (vs.map (fun v => extractUserGroupFrom t v k)) = some gs
          ∧ extractUserGroupsFrom t r k = some (gs.filter (fun g => decide (g ≠ []))))
    ∧ (∀ t : Nat → Nat, extractUserGroupsFrom t testSearchResults (bytes "cn")
        = some [bytes "London team", bytes "New York team", bytes "Paris team",
            bytes "Brussels team"]) := by
  have main : ∀ (t : Nat → Nat) (r : SearchResult) (k : GoString),
      extractUserGroupsFrom t r k
        = (valuesOfFirstEntry r).bind (fun vs =>
            (allReturned (vs.map (fun v => extractUserGroupFrom t v k))).map
              (List.filter (fun g => decide (g ≠ [])))) := by
    intro t r k
    unfold extractUserGroupsFrom valuesOfFirstEntry
    rcases r with ⟨entries, refs⟩
    cases entries with
    | nil => simp [allReturned]
    | cons e rest =>
      cases e with
      | none => simp
      | some e =>
        simp only [attributesLoop_eq, List.nil_append]
        cases allReturned e.Attributes <;> simp
  refine ⟨main, ?_, fun t => rfl⟩
  intro t r k vs hk hlen hvs
  obtain ⟨gs, hgs⟩ := allReturned_of_all_return (fun v => extractUserGroupFrom t v k)
    (extractUserGroupFrom_returns t k hk hlen) vs
  exact ⟨gs, hgs, by rw [main, hvs, Option.some_bind, hgs, Option.map_some']⟩

/-- C2, the failing input: with the entry of Go's case table for U+017F (the
long s, whose upper case is "S"), the value "ſt=Ohio" matches the key "st" and
the result is "=Ohio", not "Ohio". -/
theorem extractUserGroupFrom_long_s (t : Nat → Nat) (h : t 0x17F = 0x53) :
    extractUserGroupFrom t (bytes "ſt=Ohio") (bytes "st") = some (bytes "=Ohio") := by
  have e : ToUpper t (bytes "ſt=Ohio") = EncodeRune (t 0x17F) ++ bytes "T=OHIO" := rfl
  have e2 : extractUserGroupFrom t (bytes "ſt=Ohio") (bytes "st")
      = if HasPrefix (ToUpper t (bytes "ſt=Ohio")) (bytes "ST=") then some (bytes "=Ohio")
        else some [] := rfl
  rw [e2, e, h]
  rfl

theorem extractUserGroupFrom_long_s_witness :
    extractUserGroupFrom caseTableSample (bytes "ſt=Ohio") (bytes "st")
      = some (bytes "=Ohio") :=
  extractUserGroupFrom_long_s caseTableSample rfl

/-- C3: the filter `GetGroupsFor` sends is the template with every occurrence of
"{username}" replaced by the username and all other text unchanged: if the
template is the pieces `segs` (none of which contains the token) joined by the
token, the filter is the same pieces joined by the username; every template
is such a joining; and "(mailNickname={username})" with "dave-jones" gives
"(mailNickname=dave-jones)". -/
theorem filter_replaces_every_username_token {σ : Type} (t : Nat → Nat) (c : Client σ)
    (sd : SearchDetails) (u : GoString) (s : σ) (segs : List GoString)
    (hsplit : sd.SearchFilter = List.intercalate (bytes "{username}") segs)
    (hfree : ∀ seg ∈ segs, ¬ bytes "{username}" <:+: seg) :
    (searchRequests (callsOf t c sd u s)).map (fun sr => sr.SearchFilter)
      = (if (c.ConnectTls s).1.isSome then [] else [List.intercalate u segs])
    ∧ (∀ template : GoString, ∃ pieces : List GoString,
        template = List.intercalate (bytes "{username}") pieces
        ∧ ∀ seg ∈ pieces, ¬ bytes "{username}" <:+: seg)
    ∧ Replace (bytes "(mailNickname={username})") (bytes "{username}") (bytes "dave-jones")
        = bytes "(mailNickname=dave-jones)" := by
  have htok : bytes "{username}" = 0x7B :: bytes "username\x7d" := by decide
  have hu : (0x7B : Nat) ∉ bytes "username\x7d" := by decide
  refine ⟨?_, ?_, by decide⟩
  · rw [callsOf_eq]
    cases (c.ConnectTls s).1 with
    | some e => simp [searchRequests]
    | none =>
      simp only [Option.isSome_none, Bool.false_eq_true, if_false, searchRequests, List.map_cons,
        List.map_nil, searchRequestFor, hsplit]
      rw [htok] at hfree ⊢
      rw [Replace_intercalate _ _ u hu segs hfree]
  · intro template
    obtain ⟨pieces, _, hj, hfree2⟩ :=
      exists_segments (bytes "{username}") (by decide) template.length template (Nat.le_refl _)
    exact ⟨pieces, hj.symm, hfree2⟩

theorem filter_replaces_every_username_token_witness :
    (searchRequests (callsOf id (fixedClient none (some ⟨[], []⟩) none) someSearchDetails
        (bytes "dave-jones") ())).map (fun sr => sr.SearchFilter)
      = (if ((fixedClient none (some ⟨[], []⟩) none).ConnectTls ()).1.isSome then []
         else [List.intercalate (bytes "dave-jones") [bytes "(mailNickname=", bytes ")"]])
    ∧ (∀ template : GoString, ∃ pieces : List GoString,
        template = List.intercalate (bytes "{username}") pieces
        ∧ ∀ seg ∈ pieces, ¬ bytes "{username}" <:+: seg)
    ∧ Replace (bytes "(mailNickname={username})") (bytes "{username}") (bytes "dave-jones")
        = bytes "(mailNickname=dave-jones)" :=
  filter_replaces_every_username_token id (fixedClient none (some ⟨[], []⟩) none)
    someSearchDetails (bytes "dave-jones") () [bytes "(mailNickname=", bytes ")"]
    (by decide) (by decide)

/-- C4, as stated, fails: when the client's connect fails, `Close` is not
called at all. -/
theorem close_not_called_once_when_connect_fails :
    ¬ (∀ (σ : Type) (t : Nat → Nat) (c : Client σ) (sd : SearchDetails) (u : GoString) (s : σ),
        (callsOf t c sd u s).countP Call.isConnect = 1
        ∧ (callsOf t c sd u s).countP Call.isSearch ≤ 1
        ∧ (callsOf t c sd u s).countP Call.isClose = 1) := by
  intro h
  have h3 := (h Unit id (fixedClient (some ⟨bytes "Meh"⟩) none none) someSearchDetails
    (bytes "dave-jones") ()).2.2
  rw [callsOf_eq] at h3
  revert h3
  decide

/-- C4, amended: one call of `GetGroupsFor` calls the client's connect exactly
once; when connect succeeds it then calls `Search` exactly once and `Close`
exactly once; when connect fails it calls neither `Search` nor `Close`. -/
theorem GetGroupsFor_call_counts {σ : Type} (t : Nat → Nat) (c : Client σ)
    (sd : SearchDetails) (u : GoString) (s : σ) :
    (callsOf t c sd u s).countP Call.isConnect = 1
    ∧ (callsOf t c sd u s).countP Call.isSearch ≤ 1
    ∧ (callsOf t c sd u s).countP Call.isSearch = (if (c.ConnectTls s).1.isSome then 0 else 1)
    ∧ (callsOf t c sd u s).countP Call.isClose = (if (c.ConnectTls s).1.isSome then 0 else 1) := by
  rw [callsOf_eq]
  cases (c.ConnectTls s).1 <;> simp [List.countP_cons, Call.isConnect, Call.isSearch, Call.isClose]

/-- C5: if the client's connect fails with error `e`, `GetGroupsFor` returns
exactly `e` with a nil group list, and the only call it made is the connect:
`Search` is never called. -/
theorem connect_error_is_returned_unchanged {σ : Type} (t : Nat → Nat) (c : Client σ)
    (sd : SearchDetails) (u : GoString) (s s1 : σ) (e : Error)
    (h : c.ConnectTls s = (some e, s1)) :
    (GetGroupsFor t c sd u s).1 = Outcome.returned none (some e)
    ∧ callsOf t c sd u s = [Call.ConnectTls]
    ∧ (callsOf t c sd u s).countP Call.isSearch = 0 := by
  refine ⟨?_, ?_, ?_⟩
  · simp [GetGroupsFor, h]
  · simp [callsOf_eq, h]
  · simp [callsOf_eq, h, List.countP_cons, Call.isSearch]

theorem connect_error_is_returned_unchanged_witness :
    (GetGroupsFor id (fixedClient (some ⟨bytes "Meh"⟩) none none) someSearchDetails
        (bytes "dave-jones") ()).1 = Outcome.returned none (some ⟨bytes "Meh"⟩)
    ∧ callsOf id (fixedClient (some ⟨bytes "Meh"⟩) none none) someSearchDetails
        (bytes "dave-jones") () = [Call.ConnectTls]
    ∧ (callsOf id (fixedClient (some ⟨bytes "Meh"⟩) none none) someSearchDetails
        (bytes "dave-jones") ()).countP Call.isSearch = 0 :=
  connect_error_is_returned_unchanged id (fixedClient (some ⟨bytes "Meh"⟩) none none)
    someSearchDetails (bytes "dave-jones") () () ⟨bytes "Meh"⟩ rfl

/-- C6: if connect succeeds and the client's `Search` fails with error `e`,
`GetGroupsFor` returns exactly `e` with a nil group list, and `Close` has been
called, after the `Search`, by the time it returns. -/
theorem search_error_is_returned_unchanged {σ : Type} (t : Nat → Nat) (c : Client σ)
    (sd : SearchDetails) (u : GoString) (s s1 s2 : σ) (r : Option SearchResult) (e : Error)
    (h1 : c.ConnectTls s = (none, s1))
    (h2 : c.Search (searchRequestFor sd u) s1 = ((r, some e), s2)) :
    (GetGroupsFor t c sd u s).1 = Outcome.returned none (some e)
    ∧ callsOf t c sd u s = [Call.ConnectTls, Call.Search (searchRequestFor sd u), Call.Close]
    ∧ (GetGroupsFor t c sd u s).2.2 = c.Close s2 := by
  refine ⟨?_, ?_, ?_⟩
  · simp [GetGroupsFor, h1, h2]
  · simp [callsOf_eq, h1]
  · simp [GetGroupsFor, h1, h2]

theorem search_error_is_returned_unchanged_witness :
    (GetGroupsFor id (fixedClient none none (some ⟨bytes "Some error"⟩)) someSearchDetails
        (bytes "dave-jones") ()).1 = Outcome.returned none (some ⟨bytes "Some error"⟩)
    ∧ callsOf id (fixedClient none none (some ⟨bytes "Some error"⟩)) someSearchDetails
        (bytes "dave-jones") ()
        = [Call.ConnectTls, Call.Search (searchRequestFor someSearchDetails (bytes "dave-jones")),
            Call.Close]
    ∧ (GetGroupsFor id (fixedClient none none (some ⟨bytes "Some error"⟩)) someSearchDetails
        (bytes "dave-jones") ()).2.2
        = (fixedClient none none (some ⟨bytes "Some error"⟩)).Close () :=
  search_error_is_returned_unchanged id (fixedClient none none (some ⟨bytes "Some error"⟩))
    someSearchDetails (bytes "dave-jones") () () () none ⟨bytes "Some error"⟩ rfl rfl

/-- C7: a result without entries gives the empty list for every group key, and
when connect succeeds and `Search` returns such a result without error,
`GetGroupsFor` returns an empty (non-nil) group list and no error. -/
theorem no_entries_give_no_groups {σ : Type} (t : Nat → Nat) (c : Client σ)
    (sd : SearchDetails) (u : GoString) (s s1 s2 : σ) (r : SearchResult)
    (hr : r.Entries = [])
    (h1 : c.ConnectTls s = (none, s1))
    (h2 : c.Search (searchRequestFor sd u) s1 = ((some r, none), s2)) :
    (∀ k : GoString, extractUserGroupsFrom t r k = some [])
    ∧ (GetGroupsFor t c sd u s).1 = Outcome.returned (some []) none := by
  have hk : ∀ k : GoString, extractUserGroupsFrom t r k = some [] := by
    intro k
    simp [extractUserGroupsFrom, hr]
  exact ⟨hk, by simp [GetGroupsFor, h1, h2, hk]⟩

theorem no_entries_give_no_groups_witness :
    (∀ k : GoString, extractUserGroupsFrom id ⟨[], []⟩ k = some [])
    ∧ (GetGroupsFor id (fixedClient none (some ⟨[], []⟩) none) someSearchDetails
        (bytes "dave-jones") ()).1 = Outcome.returned (some []) none :=
  no_entries_give_no_groups id (fixedClient none (some ⟨[], []⟩) none) someSearchDetails
    (bytes "dave-jones") () () () ⟨[], []⟩ rfl rfl rfl

/-- C8: for a result with at least one entry, `extractUserGroupsFrom` gives the
same as for the result holding only that first entry: the second and later
entries never contribute. -/
theorem only_first_entry_is_consulted (t : Nat → Nat) (first : Option Entry)
    (others : List (Option Entry)) (referrals : List GoString) (k : GoString) :
    extractUserGroupsFrom t ⟨first :: others, referrals⟩ k
      = extractUserGroupsFrom t ⟨[first], referrals⟩ k := by
  cases first <;> rfl

/-- C9, what the code does instead: whatever `EnableTLS` and
`InsecureSkipVerify` hold, the session is opened by `ConnectTls`, `Connect` is
never called, and nothing `GetGroupsFor` does depends on the two flags. -/
theorem GetGroupsFor_always_connects_with_tls {σ : Type} (t : Nat → Nat) (c : Client σ)
    (sd : SearchDetails) (u : GoString) (s : σ) (enable skip : Bool) :
    (callsOf t c sd u s).head? = some Call.ConnectTls
    ∧ Call.Connect ∉ callsOf t c sd u s
    ∧ callsOf t c { sd with EnableTLS := enable, InsecureSkipVerify := skip } u s
        = callsOf t c sd u s
    ∧ (GetGroupsFor t c { sd with EnableTLS := enable, InsecureSkipVerify := skip } u s).1
        = (GetGroupsFor t c sd u s).1 := by
  refine ⟨?_, ?_, ?_, ?_⟩
  · rw [callsOf_eq]; cases (c.ConnectTls s).1 <;> simp
  · rw [callsOf_eq]; cases (c.ConnectTls s).1 <;> simp
  · simp [callsOf_eq, searchRequestFor]
  · simp only [GetGroupsFor, searchRequestFor]
    rcases c.ConnectTls s with ⟨e1, s1⟩
    cases e1 with
    | some e => rfl
    | none =>
      simp only
      rcases c.Search _ s1 with ⟨⟨r, e2⟩, s2⟩
      cases e2 <;> cases r <;> try rfl
      simp only
      cases extractUserGroupsFrom t _ sd.GroupAttribute <;> rfl

/-- C10: the requests `GetGroupsFor` hands to the client's `Search` are a single
one when connect succeeds (none when it fails), carrying the configuration's
`Attributes`, `BaseDn` and `SearchTimeout` unchanged and the substituted filter;
and the configuration holds the same values after the call as before. -/
theorem search_request_carries_the_configuration {σ : Type} (t : Nat → Nat) (c : Client σ)
    (sd : SearchDetails) (u : GoString) (s : σ) :
    searchRequests (callsOf t c sd u s)
      = (if (c.ConnectTls s).1.isSome then []
         else [{ Attributes := sd.Attributes
                 BaseDn := sd.BaseDn
                 SearchFilter := Replace sd.SearchFilter (bytes "{username}") u
                 SearchTimeout := sd.SearchTimeout }])
    ∧ (GetGroupsFor t c sd u s).2.1 = sd := by
  constructor
  · rw [callsOf_eq]
    cases (c.ConnectTls s).1 <;> simp [searchRequests, searchRequestFor]
  · simp only [GetGroupsFor]
    rcases c.ConnectTls s with ⟨e1, s1⟩
    cases e1 with
    | some e => rfl
    | none =>
      simp only
      rcases c.Search _ s1 with ⟨⟨r, e2⟩, s2⟩
      cases e2 <;> cases r <;> try rfl
      simp only
      cases extractUserGroupsFrom t _ sd.GroupAttribute <;> rfl

/-! ## Lemmas: `ldap/client.go` -/

theorem Connect_calls {ω κ : Type} (L : Ldap ω κ) (c : ldapClient κ) (w : ω) :
    (ldapClient.Connect (recordingLdap L) c ([], w)).2.2.1
      = (match (L.Dial (bytes "tcp") c.ldapServerUrl w).1 with
         | Except.error _ => [LdapCall.Dial (bytes "tcp") c.ldapServerUrl]
         | Except.ok conn =>
           if (L.Bind conn c.bindUsername c.bindPassword
                (L.Dial (bytes "tcp") c.ldapServerUrl w).2).1.isSome then
             [LdapCall.Dial (bytes "tcp") c.ldapServerUrl,
              LdapCall.Bind conn c.bindUsername c.bindPassword, LdapCall.Close conn]
           else
             [LdapCall.Dial (bytes "tcp") c.ldapServerUrl,
              LdapCall.Bind conn c.bindUsername c.bindPassword]) := by
  unfold ldapClient.Connect
  simp only [recordingLdap, List.nil_append]
  rcases hd : L.Dial (bytes "tcp") c.ldapServerUrl w with ⟨r, w1⟩
  cases r with
  | error e => rfl
  | ok conn =>
    simp only
    rcases hb : L.Bind conn c.bindUsername c.bindPassword w1 with ⟨e, w2⟩
    cases e <;> simp

theorem ConnectTls_calls {ω κ : Type} (L : Ldap ω κ) (c : ldapClient κ) (skip : Bool) (w : ω) :
    (ldapClient.ConnectTls (recordingLdap L) c skip ([], w)).2.2.1
      = (match (L.DialTLS (bytes "tcp") c.ldapServerUrl ⟨skip⟩ w).1 with
         | Except.error _ => [LdapCall.DialTLS (bytes "tcp") c.ldapServerUrl ⟨skip⟩]
         | Except.ok conn =>
           if (L.Bind conn c.bindUsername c.bindPassword
                (L.DialTLS (bytes "tcp") c.ldapServerUrl ⟨skip⟩ w).2).1.isSome then
             [LdapCall.DialTLS (bytes "tcp") c.ldapServerUrl ⟨skip⟩,
              LdapCall.Bind conn c.bindUsername c.bindPassword, LdapCall.Close conn]
           else
             [LdapCall.DialTLS (bytes "tcp") c.ldapServerUrl ⟨skip⟩,
              LdapCall.Bind conn c.bindUsername c.bindPassword]) := by
  unfold ldapClient.ConnectTls
  simp only [recordingLdap, List.nil_append]
  rcases hd : L.DialTLS (bytes "tcp") c.ldapServerUrl ⟨skip⟩ w with ⟨r, w1⟩
  cases r with
  | error e => rfl
  | ok conn =>
    simp only
    rcases hb : L.Bind conn c.bindUsername c.bindPassword w1 with ⟨e, w2⟩
    cases e <;> simp

/-- C11: on a client whose session is set, `ldapClient.Search` issues exactly
one call on the transport, a search on that session whose base DN, filter,
attribute list and time limit are the request's `BaseDn`, `SearchFilter`,
`Attributes` and `SearchTimeout`, with scope whole-subtree, alias
dereferencing never, size limit 0, types-only false and no controls. -/
theorem Search_issues_one_transport_search {ω κ : Type} (L : Ldap ω κ) (c : ldapClient κ)
    (conn : κ) (sr : SearchRequest) (w : ω) (h : c.ldapSearcher = some conn) :
    (ldapClient.Search (recordingLdap L) c sr ([], w)).map (fun r => r.2.1)
      = some [LdapCall.Search conn
          { BaseDN := sr.BaseDn
            Scope := ScopeWholeSubtree
            DerefAliases := NeverDerefAliases
            SizeLimit := 0
            TimeLimit := sr.SearchTimeout
            TypesOnly := false
            Filter := sr.SearchFilter
            Attributes := sr.Attributes
            Controls := [] }] := by
  unfold ldapClient.Search
  simp only [h, recordingLdap, List.nil_append, ldapSearchRequestFor]
  rcases L.Search conn _ w with ⟨⟨r, e⟩, w1⟩
  cases e <;> rfl

theorem Search_issues_one_transport_search_witness :
    (ldapClient.Search (recordingLdap (fixedLdap none none (some testSearchResults) none))
        { testClient with ldapSearcher := some () } testSearchRequest ([], ())).map
        (fun r => r.2.1)
      = some [LdapCall.Search ()
          { BaseDN := bytes "OU=User Policies,OU=All Users,DC=FAE,DC=CORPORATE"
            Scope := ScopeWholeSubtree
            DerefAliases := NeverDerefAliases
            SizeLimit := 0
            TimeLimit := 20
            TypesOnly := false
            Filter := bytes "(mailNickname=dave-jones)"
            Attributes := [bytes "memberOf"]
            Controls := [] }] :=
  Search_issues_one_transport_search (fixedLdap none none (some testSearchResults) none)
    { testClient with ldapSearcher := some () } () testSearchRequest () rfl

/-- C12: on a client whose session is set, `ldapClient.Search` returns the
transport's result unchanged with a nil error when the transport search
succeeds, and when the transport fails with message `m` it returns a nil result
and an error whose message is "LDAP group error: " followed by `m`. -/
theorem Search_passes_result_and_wraps_error {ω κ : Type} (L : Ldap ω κ) (c : ldapClient κ)
    (conn : κ) (sr : SearchRequest) (w : ω) (h : c.ldapSearcher = some conn) :
    (∀ (found : Option SearchResult) (w1 : ω),
        L.Search conn (ldapSearchRequestFor sr) w = ((found, none), w1) →
        ldapClient.Search L c sr w = some ((found, none), w1))
    ∧ (∀ (found : Option SearchResult) (m : GoString) (w1 : ω),
        L.Search conn (ldapSearchRequestFor sr) w = ((found, some ⟨m⟩), w1) →
        ldapClient.Search L c sr w
          = some ((none, some ⟨bytes "LDAP group error: " ++ m⟩), w1)) := by
  constructor
  · intro found w1 hs
    simp [ldapClient.Search, h, hs]
  · intro found m w1 hs
    simp [ldapClient.Search, h, hs]

theorem Search_passes_result_and_wraps_error_witness :
    ldapClient.Search (fixedLdap none none (some testSearchResults) none)
        { testClient with ldapSearcher := some () } testSearchRequest ()
      = some ((some testSearchResults, none), ())
    ∧ ldapClient.Search (fixedLdap none none none (some ⟨bytes "Some error"⟩))
        { testClient with ldapSearcher := some () } testSearchRequest ()
      = some ((none, some ⟨bytes "LDAP group error: Some error"⟩), ()) :=
  ⟨(Search_passes_result_and_wraps_error (fixedLdap none none (some testSearchResults) none)
      { testClient with ldapSearcher := some () } () testSearchRequest () rfl).1
      (some testSearchResults) () rfl,
   (Search_passes_result_and_wraps_error (fixedLdap none none none (some ⟨bytes "Some error"⟩))
      { testClient with ldapSearcher := some () } () testSearchRequest () rfl).2
      none (bytes "Some error") () rfl⟩

/-- C13: in both `Connect` and `ConnectTls`: if the dial fails, the error
message starts with "Cannot connect to LDAP:" and the only call made is the
dial; if the dial succeeds and the bind is rejected, the calls made are the
dial, the bind and then a `Close` of the opened connection, the error message
starts with "Cannot bind to LDAP:", and the client is as it was (its session
field is not assigned, so it stays unset when it was unset); the session field
is assigned, with the opened connection, only when both steps succeed. -/
theorem connect_errors_and_session {ω κ : Type} (L : Ldap ω κ) (c : ldapClient κ)
    (skip : Bool) (w : ω) :
    ((∀ (e : Error) (w1 : ω), L.Dial (bytes "tcp") c.ldapServerUrl w = (Except.error e, w1) →
        (∃ m, (ldapClient.Connect L c w).1 = some ⟨m⟩ ∧ bytes "Cannot connect to LDAP:" <+: m
          ∧ m = bytes "Cannot connect to LDAP: " ++ e.message)
        ∧ (ldapClient.Connect L c w).2.1 = c
        ∧ (ldapClient.Connect (recordingLdap L) c ([], w)).2.2.1
            = [LdapCall.Dial (bytes "tcp") c.ldapServerUrl])
     ∧ (∀ (conn : κ) (w1 w2 : ω) (e : Error),
        L.Dial (bytes "tcp") c.ldapServerUrl w = (Except.ok conn, w1) →
        L.Bind conn c.bindUsername c.bindPassword w1 = (some e, w2) →
        (∃ m, (ldapClient.Connect L c w).1 = some ⟨m⟩ ∧ bytes "Cannot bind to LDAP:" <+: m
          ∧ m = bytes "Cannot bind to LDAP: " ++ e.message)
        ∧ (ldapClient.Connect L c w).2.1 = c
        ∧ (c.ldapSearcher = none → (ldapClient.Connect L c w).2.1.ldapSearcher = none)
        ∧ (ldapClient.Connect L c w).2.2 = L.Close conn w2
        ∧ (ldapClient.Connect (recordingLdap L) c ([], w)).2.2.1
            = [LdapCall.Dial (bytes "tcp") c.ldapServerUrl,
               LdapCall.Bind conn c.bindUsername c.bindPassword, LdapCall.Close conn])
     ∧ (∀ (conn : κ) (w1 w2 : ω),
        L.Dial (bytes "tcp") c.ldapServerUrl w = (Except.ok conn, w1) →
        L.Bind conn c.bindUsername c.bindPassword w1 = (none, w2) →
        (ldapClient.Connect L c w).1 = none
        ∧ (ldapClient.Connect L c w).2.1 = { c with ldapSearcher := some conn })
     ∧ ((ldapClient.Connect L c w).2.1 ≠ c → (ldapClient.Connect L c w).1 = none))
    ∧
    ((∀ (e : Error) (w1 : ω),
        L.DialTLS (bytes "tcp") c.ldapServerUrl ⟨skip⟩ w = (Except.error e, w1) →
        (∃ m, (ldapClient.ConnectTls L c skip w).1 = some ⟨m⟩
          ∧ bytes "Cannot connect to LDAP:" <+: m
          ∧ m = bytes "Cannot connect to LDAP: " ++ e.message)
        ∧ (ldapClient.ConnectTls L c skip w).2.1 = c
        ∧ (ldapClient.ConnectTls (recordingLdap L) c skip ([], w)).2.2.1
            = [LdapCall.DialTLS (bytes "tcp") c.ldapServerUrl ⟨skip⟩])
     ∧ (∀ (conn : κ) (w1 w2 : ω) (e : Error),
        L.DialTLS (bytes "tcp") c.ldapServerUrl ⟨skip⟩ w = (Except.ok conn, w1) →
        L.Bind conn c.bindUsername c.bindPassword w1 = (some e, w2) →
        (∃ m, (ldapClient.ConnectTls L c skip w).1 = some ⟨m⟩
          ∧ bytes "Cannot bind to LDAP:" <+: m
          ∧ m = bytes "Cannot bind to LDAP: " ++ e.message)
        ∧ (ldapClient.ConnectTls L c skip w).2.1 = c
        ∧ (c.ldapSearcher = none → (ldapClient.ConnectTls L c skip w).2.1.ldapSearcher = none)
        ∧ (ldapClient.ConnectTls L c skip w).2.2 = L.Close conn w2
        ∧ (ldapClient.ConnectTls (recordingLdap L) c skip ([], w)).2.2.1
            = [LdapCall.DialTLS (bytes "tcp") c.ldapServerUrl ⟨skip⟩,
               LdapCall.Bind conn c.bindUsername c.bindPassword, LdapCall.Close conn])
     ∧ (∀ (conn : κ) (w1 w2 : ω),
        L.DialTLS (bytes "tcp") c.ldapServerUrl ⟨skip⟩ w = (Except.ok conn, w1) →
        L.Bind conn c.bindUsername c.bindPassword w1 = (none, w2) →
        (ldapClient.ConnectTls L c skip w).1 = none
        ∧ (ldapClient.ConnectTls L c skip w).2.1 = { c with ldapSearcher := some conn })
     ∧ ((ldapClient.ConnectTls L c skip w).2.1 ≠ c → (ldapClient.ConnectTls L c skip w).1 = none)) := by
  have hpc : ∀ m : GoString, bytes "Cannot connect to LDAP:" <+: bytes "Cannot connect to LDAP: " ++ m :=
    fun m => ⟨bytes " " ++ m, by rw [← List.append_assoc]; rfl⟩
  have hpb : ∀ m : GoString, bytes "Cannot bind to LDAP:" <+: bytes "Cannot bind to LDAP: " ++ m :=
    fun m => ⟨bytes " " ++ m, by rw [← List.append_assoc]; rfl⟩
  refine ⟨⟨?_, ?_, ?_, ?_⟩, ⟨?_, ?_, ?_, ?_⟩⟩
  · intro e w1 hd
    refine ⟨⟨_, by simp [ldapClient.Connect, hd], hpc _, rfl⟩, by simp [ldapClient.Connect, hd], ?_⟩
    rw [Connect_calls, hd]
  · intro conn w1 w2 e hd hb
    refine ⟨⟨_, by simp [ldapClient.Connect, hd, hb], hpb _, rfl⟩,
      by simp [ldapClient.Connect, hd, hb], ?_, by simp [ldapClient.Connect, hd, hb], ?_⟩
    · intro hn; simp [ldapClient.Connect, hd, hb, hn]
    · rw [Connect_calls, hd]; simp [hb]
  · intro conn w1 w2 hd hb
    simp [ldapClient.Connect, hd, hb]
  · unfold ldapClient.Connect
    rcases L.Dial (bytes "tcp") c.ldapServerUrl w with ⟨r, w1⟩
    cases r with
    | error e => intro hne; exact absurd rfl hne
    | ok conn =>
      simp only
      rcases L.Bind conn c.bindUsername c.bindPassword w1 with ⟨e, w2⟩
      cases e with
      | some e => intro hne; exact absurd rfl hne
      | none => intro _; rfl
  · intro e w1 hd
    refine ⟨⟨_, by simp [ldapClient.ConnectTls, hd], hpc _, rfl⟩,
      by simp [ldapClient.ConnectTls, hd], ?_⟩
    rw [ConnectTls_calls, hd]
  · intro conn w1 w2 e hd hb
    refine ⟨⟨_, by simp [ldapClient.ConnectTls, hd, hb], hpb _, rfl⟩,
      by simp [ldapClient.ConnectTls, hd, hb], ?_, by simp [ldapClient.ConnectTls, hd, hb], ?_⟩
    · intro hn; simp [ldapClient.ConnectTls, hd, hb, hn]
    · rw [ConnectTls_calls, hd]; simp [hb]
  · intro conn w1 w2 hd hb
    simp [ldapClient.ConnectTls, hd, hb]
  · unfold ldapClient.ConnectTls
    rcases L.DialTLS (bytes "tcp") c.ldapServerUrl ⟨skip⟩ w with ⟨r, w1⟩
    cases r with
    | error e => intro hne; exact absurd rfl hne
    | ok conn =>
      simp only
      rcases L.Bind conn c.bindUsername c.bindPassword w1 with ⟨e, w2⟩
      cases e with
      | some e => intro hne; exact absurd rfl hne
      | none => intro _; rfl

theorem connect_errors_and_session_witness :
    (ldapClient.Connect
        (recordingLdap (fixedLdap none (some ⟨bytes "Invalid Credentials"⟩) none none))
        testClient ([], ())).2.2.1
      = [LdapCall.Dial (bytes "tcp") (bytes "localhost:49456"),
         LdapCall.Bind () (bytes "cn=testy,dc=testers,dc=testz") (bytes "work123"),
         LdapCall.Close ()]
    ∧ (ldapClient.ConnectTls (fixedLdap (some ⟨bytes "connection refused"⟩) none none none)
        testClient true ()).2.1 = testClient :=
  ⟨((connect_errors_and_session (fixedLdap none (some ⟨bytes "Invalid Credentials"⟩) none none)
      testClient true ()).1.2.1 () () () ⟨bytes "Invalid Credentials"⟩ rfl rfl).2.2.2.2,
   ((connect_errors_and_session (fixedLdap (some ⟨bytes "connection refused"⟩) none none none)
      testClient true ()).2.1 ⟨bytes "connection refused"⟩ () rfl).2.1⟩


/-- C14: for every input that `json.Unmarshal` accepts and whose decoded
username is empty (absent or ""), the handler returns the GroupsRetrievalError
event with error text "No Username provided.", an empty username and no
groups, and the searcher is not called. -/
theorem handler_rejects_empty_username {ρ : Type}
    (unmarshal : GoString → Option Error × GetGroupsInput) (searcher : Searcher ρ)
    (searchDetails : SearchDetails) (input : GoString) (s : ρ) (args : GetGroupsInput)
    (hparse : unmarshal input = (none, args)) (hempty : args.UserName = []) :
    (getGroupsHandler unmarshal searcher searchDetails input s).1
      = some { EventDef := { Name := bytes "GroupsRetrievalError" }
               Payload := { Username := [], UserGroups := none
                            ErrorText := bytes "No Username provided." } }
    ∧ (getGroupsHandler unmarshal (recordingSearcher searcher) searchDetails input ([], s)).2.1
        = []
    ∧ (getGroupsHandler unmarshal searcher searchDetails input s).2 = s := by
  refine ⟨?_, ?_, ?_⟩
  · simp only [getGroupsHandler, hparse, hempty, if_true]
    rfl
  · simp only [getGroupsHandler, hparse, hempty, if_true]
  · simp only [getGroupsHandler, hparse, hempty, if_true]

theorem handler_rejects_empty_username_witness :
    (getGroupsHandler sampleUnmarshal (fixedSearcher Outcome.panicked) someSearchDetails
        (bytes "\x7b\x7d") ()).1
      = some { EventDef := { Name := bytes "GroupsRetrievalError" }
               Payload := { Username := [], UserGroups := none
                            ErrorText := bytes "No Username provided." } }
    ∧ (getGroupsHandler sampleUnmarshal (recordingSearcher (fixedSearcher Outcome.panicked))
        someSearchDetails (bytes "\x7b\x7d") ([], ())).2.1 = []
    ∧ (getGroupsHandler sampleUnmarshal (fixedSearcher Outcome.panicked) someSearchDetails
        (bytes "\x7b\x7d") ()).2 = () :=
  handler_rejects_empty_username sampleUnmarshal (fixedSearcher Outcome.panicked)
    someSearchDetails (bytes "\x7b\x7d") () { UserName := [] } rfl rfl

/-- C15: for every input that `json.Unmarshal` accepts with a non-empty
username `u`, the handler calls the searcher exactly once, with the configured
search details as they are and `u`; when the searcher returns a group list and
no error the event is GroupsRetrieved with `u`, exactly that list and no error
text; when the searcher returns an error the event is GroupsRetrievalError with
`u`, exactly the error's message and no groups. -/
theorem handler_reports_what_the_searcher_returns {ρ : Type}
    (unmarshal : GoString → Option Error × GetGroupsInput) (searcher : Searcher ρ)
    (searchDetails : SearchDetails) (input : GoString) (s : ρ) (args : GetGroupsInput)
    (hparse : unmarshal input = (none, args)) (hu : args.UserName ≠ []) :
    (getGroupsHandler unmarshal (recordingSearcher searcher) searchDetails input ([], s)).2.1
        = [(searchDetails, args.UserName)]
    ∧ (∀ (groups : Option (List GoString)) (s1 : ρ),
        searcher.GetGroupsFor searchDetails args.UserName s = (Outcome.returned groups none, s1) →
        (getGroupsHandler unmarshal searcher searchDetails input s).1
          = some { EventDef := { Name := bytes "GroupsRetrieved" }
                   Payload := { Username := args.UserName, UserGroups := groups
                                ErrorText := [] } })
    ∧ (∀ (groups : Option (List GoString)) (err : Error) (s1 : ρ),
        searcher.GetGroupsFor searchDetails args.UserName s
          = (Outcome.returned groups (some err), s1) →
        (getGroupsHandler unmarshal searcher searchDetails input s).1
          = some { EventDef := { Name := bytes "GroupsRetrievalError" }
                   Payload := { Username := args.UserName, UserGroups := none
                                ErrorText := err.message } }) := by
  refine ⟨?_, ?_, ?_⟩
  · simp only [getGroupsHandler, hparse, hu, if_false, recordingSearcher, List.nil_append]
    rcases searcher.GetGroupsFor searchDetails args.UserName s with ⟨o, s1⟩
    cases o with
    | panicked => rfl
    | returned groups err => cases err <;> rfl
  · intro groups s1 hs
    simp only [getGroupsHandler, hparse, hu, if_false, hs]
    rfl
  · intro groups err s1 hs
    simp only [getGroupsHandler, hparse, hu, if_false, hs]
    rfl

theorem handler_reports_what_the_searcher_returns_witness :
    (getGroupsHandler sampleUnmarshal
        (recordingSearcher (fixedSearcher
          (Outcome.returned (some [bytes "group1", bytes "group2"]) none)))
        someSearchDetails (bytes "\x7b\"username\": \"carlos\"\x7d") ([], ())).2.1
      = [(someSearchDetails, bytes "carlos")]
    ∧ (getGroupsHandler sampleUnmarshal
        (fixedSearcher (Outcome.returned (some [bytes "group1", bytes "group2"]) none))
        someSearchDetails (bytes "\x7b\"username\": \"carlos\"\x7d") ()).1
      = some { EventDef := { Name := bytes "GroupsRetrieved" }
               Payload := { Username := bytes "carlos"
                            UserGroups := some [bytes "group1", bytes "group2"]
                            ErrorText := [] } } :=
  ⟨(handler_reports_what_the_searcher_returns sampleUnmarshal
      (fixedSearcher (Outcome.returned (some [bytes "group1", bytes "group2"]) none))
      someSearchDetails (bytes "\x7b\"username\": \"carlos\"\x7d") () { UserName := bytes "carlos" }
      (by decide) (by decide)).1,
   (handler_reports_what_the_searcher_returns sampleUnmarshal
      (fixedSearcher (Outcome.returned (some [bytes "group1", bytes "group2"]) none))
      someSearchDetails (bytes "\x7b\"username\": \"carlos\"\x7d") () { UserName := bytes "carlos" }
      (by decide) (by decide)).2.1 (some [bytes "group1", bytes "group2"]) () rfl⟩


/-! ## Lemmas: loading the configuration -/

theorem except_bind_eq_ok {ε α β : Type} (a : Except ε α) (f : α → Except ε β) (c : β) :
    (a >>= f) = Except.ok c ↔ ∃ x, a = Except.ok x ∧ f x = Except.ok c := by
  cases a with
  | error e => simp [bind, Except.bind]
  | ok x => simp [bind, Except.bind]

theorem configVal_eq_ok (env : GoString → GoString) (k v : GoString) :
    configVal env k = Except.ok v ↔ env k ≠ [] ∧ v = env k := by
  unfold configVal
  by_cases h : env k = []
  · simp [h]
  · simp [h, eq_comm]

theorem searchTimeoutSetting_eq_ok (env : GoString → GoString) (n : Int) :
    searchTimeoutSetting env = Except.ok n
      ↔ Atoi (optionalConfigVal env (bytes "SEARCH_TIMEOUT_IN_SECONDS") (bytes "20")) = some n := by
  unfold searchTimeoutSetting
  cases Atoi (optionalConfigVal env (bytes "SEARCH_TIMEOUT_IN_SECONDS") (bytes "20")) with
  | some m => simp
  | none => cases configVal env (bytes "SEARCH_TIMEOUT_IN_SECONDS") <;> simp

theorem tlsEnabledSetting_eq_ok (env : GoString → GoString) (b : Bool) :
    tlsEnabledSetting env = Except.ok b
      ↔ env (bytes "ENABLE_TLS") ≠ [] ∧ ParseBool (env (bytes "ENABLE_TLS")) = some b := by
  unfold tlsEnabledSetting configVal
  by_cases h : env (bytes "ENABLE_TLS") = []
  · simp [h]
  · simp only [h, if_false, ne_eq, not_false_eq_true, true_and]
    cases ParseBool (env (bytes "ENABLE_TLS")) <;> simp

theorem insecureSkipVerifySetting_eq_ok (env : GoString → GoString) (b : Bool) :
    insecureSkipVerifySetting env = Except.ok b
      ↔ env (bytes "INSECURE_SKIP_VERIFY") ≠ []
        ∧ ParseBool (env (bytes "INSECURE_SKIP_VERIFY")) = some b := by
  unfold insecureSkipVerifySetting configVal
  by_cases h : env (bytes "INSECURE_SKIP_VERIFY") = []
  · simp [h]
  · simp only [h, if_false, ne_eq, not_false_eq_true, true_and]
    cases ParseBool (env (bytes "INSECURE_SKIP_VERIFY")) <;> simp

/-- What a successful load implies, and what suffices for it. -/
theorem loadConfiguration_eq_ok (env : GoString → GoString) (c : Configuration) :
    loadConfiguration env = Except.ok c
      ↔ (∀ k ∈ requiredSettings, env k ≠ [])
        ∧ Atoi (optionalConfigVal env (bytes "SEARCH_TIMEOUT_IN_SECONDS") (bytes "20"))
            = some c.searchDetails.SearchTimeout
        ∧ ParseBool (env (bytes "ENABLE_TLS")) = some c.searchDetails.EnableTLS
        ∧ ParseBool (env (bytes "INSECURE_SKIP_VERIFY")) = some c.searchDetails.InsecureSkipVerify
        ∧ c.bindUsername = env (bytes "BIND_USERNAME")
        ∧ c.bindPassword = env (bytes "BIND_PASSWORD")
        ∧ c.ldapServerUrl = env (bytes "LDAP_URL")
        ∧ c.searchDetails.Attributes = Split (env (bytes "ATTRIBUTES")) 0x2C
        ∧ c.searchDetails.BaseDn = env (bytes "BASE_DN")
        ∧ c.searchDetails.SearchFilter = env (bytes "SEARCH_FILTER")
        ∧ c.searchDetails.GroupAttribute = env (bytes "GROUP_ATTRIBUTE") := by
  unfold loadConfiguration
  simp only [except_bind_eq_ok, configVal_eq_ok, searchTimeoutSetting_eq_ok,
    tlsEnabledSetting_eq_ok, insecureSkipVerifySetting_eq_ok, requiredSettings,
    List.mem_cons, List.mem_singleton, List.not_mem_nil, or_false, forall_eq_or_imp, forall_eq,
    pure, Except.pure, Except.ok.injEq]
  constructor
  · rintro ⟨n, hn, b1, ⟨htls, hb1⟩, b2, ⟨hskip, hb2⟩, u, ⟨hu, rfl⟩,
      p, ⟨hp, rfl⟩, url, ⟨hurl, rfl⟩, a, ⟨ha, rfl⟩, dn, ⟨hdn, rfl⟩, f, ⟨hf, rfl⟩,
      g, ⟨hg, rfl⟩, rfl⟩
    exact ⟨⟨htls, hskip, hu, hp, hurl, ha, hdn, hf, hg⟩, hn, hb1, hb2, rfl, rfl, rfl, rfl, rfl,
      rfl, rfl⟩
  · rintro ⟨⟨htls, hskip, hu, hp, hurl, ha, hdn, hf, hg⟩, hn, hb1, hb2, h1, h2, h3, h4, h5, h6, h7⟩
    refine ⟨_, hn, _, ⟨htls, hb1⟩, _, ⟨hskip, hb2⟩, _, ⟨hu, rfl⟩, _, ⟨hp, rfl⟩, _, ⟨hurl, rfl⟩,
      _, ⟨ha, rfl⟩, _, ⟨hdn, rfl⟩, _, ⟨hf, rfl⟩, _, ⟨hg, rfl⟩, ?_⟩
    rcases c with ⟨cu, cp, curl, ⟨a1, a2, a3, a4, a5, a6, a7⟩⟩
    simp only at h1 h2 h3 h4 h5 h6 h7
    subst h1 h2 h3 h4 h5 h6 h7
    rfl

/-- C16, as stated, fails: with every other setting in place (the same
environment loads once the flag is added), leaving INSECURE_SKIP_VERIFY unset
ends the load in the fatal "Config value must be set" instead of giving
skip-verify false. -/
theorem unset_skip_verify_is_fatal :
    sampleEnvironment (bytes "INSECURE_SKIP_VERIFY") = []
    ∧ loadConfiguration sampleEnvironment
        = Except.error (Fatal.configValueMustBeSet (bytes "INSECURE_SKIP_VERIFY"))
    ∧ (¬ ∃ c, loadConfiguration sampleEnvironment = Except.ok c
          ∧ c.searchDetails.InsecureSkipVerify = false)
    ∧ (∃ c, loadConfiguration fullEnvironment = Except.ok c) := by
  have h : loadConfiguration sampleEnvironment
      = Except.error (Fatal.configValueMustBeSet (bytes "INSECURE_SKIP_VERIFY")) := rfl
  refine ⟨rfl, h, ?_, ?_⟩
  · rintro ⟨c, hc, _⟩
    rw [h] at hc
    exact Except.noConfusion hc
  · cases hl : loadConfiguration fullEnvironment with
    | ok c => exact ⟨c, rfl⟩
    | error f =>
      have : loadConfiguration fullEnvironment ≠ Except.error f := by
        intro hf
        have h2 : (loadConfiguration fullEnvironment).toOption = none := by rw [hf]; rfl
        have h3 : ((loadConfiguration fullEnvironment).toOption).isSome = true := rfl
        rw [h2] at h3
        exact Bool.noConfusion h3
      exact absurd hl this

/-- C16, amended: every setting read before the pack definition is required
except the search timeout. When any of ENABLE_TLS, INSECURE_SKIP_VERIFY,
BIND_USERNAME, BIND_PASSWORD, LDAP_URL, ATTRIBUTES, BASE_DN, SEARCH_FILTER,
GROUP_ATTRIBUTE is unset, loading ends in a fatal exit (so an unset skip-verify
flag does not default to false); when the timeout setting is unset, a load
that succeeds has timeout 20, and the load does succeed as soon as the nine
settings are set and the two flags parse as booleans; and when the skip-verify
flag is unset while the timeout is an integer (or unset) and ENABLE_TLS is set
to a boolean, the fatal exit is the one for the config value
INSECURE_SKIP_VERIFY that must be set. -/
theorem settings_are_required_except_the_timeout (env : GoString → GoString) :
    (∀ k ∈ requiredSettings, env k = [] → ∃ f, loadConfiguration env = Except.error f)
    ∧ (env (bytes "SEARCH_TIMEOUT_IN_SECONDS") = [] →
        ∀ c, loadConfiguration env = Except.ok c → c.searchDetails.SearchTimeout = 20)
    ∧ (env (bytes "SEARCH_TIMEOUT_IN_SECONDS") = [] →
        (∀ k ∈ requiredSettings, env k ≠ []) →
        ∀ b1 b2 : Bool, ParseBool (env (bytes "ENABLE_TLS")) = some b1 →
        ParseBool (env (bytes "INSECURE_SKIP_VERIFY")) = some b2 →
        ∃ c, loadConfiguration env = Except.ok c
          ∧ c.searchDetails.SearchTimeout = 20
          ∧ c.searchDetails.EnableTLS = b1
          ∧ c.searchDetails.InsecureSkipVerify = b2)
    ∧ (∀ (n : Int) (b : Bool),
        Atoi (optionalConfigVal env (bytes "SEARCH_TIMEOUT_IN_SECONDS") (bytes "20")) = some n →
        env (bytes "ENABLE_TLS") ≠ [] → ParseBool (env (bytes "ENABLE_TLS")) = some b →
        env (bytes "INSECURE_SKIP_VERIFY") = [] →
        loadConfiguration env
          = Except.error (Fatal.configValueMustBeSet (bytes "INSECURE_SKIP_VERIFY")))
    ∧ (env (bytes "SEARCH_TIMEOUT_IN_SECONDS") = [] →
        Atoi (optionalConfigVal env (bytes "SEARCH_TIMEOUT_IN_SECONDS") (bytes "20"))
          = some 20) := by
  have hdefault : env (bytes "SEARCH_TIMEOUT_IN_SECONDS") = [] →
      Atoi (optionalConfigVal env (bytes "SEARCH_TIMEOUT_IN_SECONDS") (bytes "20")) = some 20 := by
    intro h
    unfold optionalConfigVal
    rw [if_pos h]
    decide
  refine ⟨?_, ?_, ?_, ?_, hdefault⟩
  · intro k hk hempty
    cases hl : loadConfiguration env with
    | error f => exact ⟨f, rfl⟩
    | ok c => exact absurd hempty (((loadConfiguration_eq_ok env c).mp hl).1 k hk)
  · intro ht c hc
    have h2 := ((loadConfiguration_eq_ok env c).mp hc).2.1
    rw [hdefault ht] at h2
    exact (Option.some.inj h2).symm
  · intro ht hall b1 b2 hb1 hb2
    refine ⟨{ bindUsername := env (bytes "BIND_USERNAME")
              bindPassword := env (bytes "BIND_PASSWORD")
              ldapServerUrl := env (bytes "LDAP_URL")
              searchDetails :=
                { Attributes := Split (env (bytes "ATTRIBUTES")) 0x2C
                  BaseDn := env (bytes "BASE_DN")
                  SearchFilter := env (bytes "SEARCH_FILTER")
                  SearchTimeout := 20
                  GroupAttribute := env (bytes "GROUP_ATTRIBUTE")
                  EnableTLS := b1
                  InsecureSkipVerify := b2 } }, ?_, rfl, rfl, rfl⟩
    exact (loadConfiguration_eq_ok env _).mpr
      ⟨hall, hdefault ht, hb1, hb2, rfl, rfl, rfl, rfl, rfl, rfl, rfl⟩
  · intro n b hn htls hb hskip
    have h1 : searchTimeoutSetting env = Except.ok n := (searchTimeoutSetting_eq_ok env n).mpr hn
    have h2 : tlsEnabledSetting env = Except.ok b :=
      (tlsEnabledSetting_eq_ok env b).mpr ⟨htls, hb⟩
    have h3 : insecureSkipVerifySetting env
        = Except.error (Fatal.configValueMustBeSet (bytes "INSECURE_SKIP_VERIFY")) := by
      unfold insecureSkipVerifySetting configVal
      rw [if_pos hskip]
    unfold loadConfiguration
    rw [h1, h2, h3]
    rfl

theorem settings_are_required_except_the_timeout_witness :
    (∃ f, loadConfiguration sampleEnvironment = Except.error f)
    ∧ (∃ c, loadConfiguration fullEnvironment = Except.ok c
        ∧ c.searchDetails.SearchTimeout = 20
        ∧ c.searchDetails.EnableTLS = true
        ∧ c.searchDetails.InsecureSkipVerify = false)
    ∧ loadConfiguration sampleEnvironment
        = Except.error (Fatal.configValueMustBeSet (bytes "INSECURE_SKIP_VERIFY")) :=
  ⟨(settings_are_required_except_the_timeout sampleEnvironment).1
      (bytes "INSECURE_SKIP_VERIFY") (by decide) rfl,
   (settings_are_required_except_the_timeout fullEnvironment).2.2.1 rfl (by decide)
      true false rfl rfl,
   (settings_are_required_except_the_timeout sampleEnvironment).2.2.2.1 20 true
      ((settings_are_required_except_the_timeout sampleEnvironment).2.2.2.2 rfl)
      (by decide) rfl rfl⟩


/-! ## Lemmas: components of the form key=val -/

theorem upperByte_of_ascii {c : Nat} (h : c < 0x80) : upperByte c < 0x80 :=
  Nat.lt_of_le_of_lt (upperByte_le c) h

theorem ascii_of_upperByte_ascii {c : Nat} (h : upperByte c < 0x80) : c < 0x80 := by
  unfold upperByte at h; split at h <;> omega

theorem ascii_of_map_upperByte_eq (k1 key : GoString) (hk : ∀ x ∈ key, x < 0x80)
    (h : k1.map upperByte = key.map upperByte) : ∀ x ∈ k1, x < 0x80 := by
  intro x hx
  have h1 : upperByte x ∈ key.map upperByte := h ▸ List.mem_map_of_mem upperByte hx
  obtain ⟨y, hy, hxy⟩ := List.mem_map.mp h1
  exact ascii_of_upperByte_ascii (hxy ▸ upperByte_of_ascii (hk y hy))

theorem mapRunes_ascii_append (t : Nat → Nat) (a rest : GoString) (ha : ∀ x ∈ a, x < 0x80) :
    mapRunes (unicodeToUpper t) 0 (a ++ rest)
      = a.map upperByte ++ mapRunes (unicodeToUpper t) 0 rest := by
  induction a with
  | nil => rfl
  | cons b bs ih =>
    have hb : b < 0x80 := ha b (List.mem_cons_self b bs)
    have hd : DecodeRune b (bs ++ rest) = (b, 1) := by unfold DecodeRune; rw [if_pos hb]
    have hu : unicodeToUpper t b = upperByte b := by
      unfold unicodeToUpper; rw [if_pos (by omega)]
    have he : EncodeRune (upperByte b) = [upperByte b] := by
      unfold EncodeRune; rw [if_pos (by have := upperByte_le b; omega)]
    have h1 : mapRunes (unicodeToUpper t) 0 (b :: (bs ++ rest))
        = EncodeRune (unicodeToUpper t (DecodeRune b (bs ++ rest)).1)
          ++ mapRunes (unicodeToUpper t) ((DecodeRune b (bs ++ rest)).2 - 1) (bs ++ rest) := rfl
    rw [List.cons_append, h1, hd, hu, he]
    show [upperByte b] ++ mapRunes (unicodeToUpper t) 0 (bs ++ rest) = _
    rw [ih (fun x hx => ha x (List.mem_cons_of_mem b hx))]
    rfl

/-- A component of the form `k1=val`, with `k1` equal to an ASCII key up to
letter case, passes the comparison of `extractUserGroupFrom`, whatever bytes
`val` holds. -/
theorem key_form_matches (t : Nat → Nat) (key k1 val : GoString) (hk : ∀ x ∈ key, x < 0x80)
    (hk1 : k1.map upperByte = key.map upperByte) :
    HasPrefix (ToUpper t (k1 ++ 0x3D :: val)) (ToUpper t key ++ bytes "=") = true := by
  have h3 : bytes "=" = [0x3D] := rfl
  have hk1a : ∀ x ∈ k1 ++ [0x3D], x < 0x80 := by
    intro x hx
    rcases List.mem_append.mp hx with h | h
    · exact ascii_of_map_upperByte_eq k1 key hk hk1 x h
    · rw [List.mem_singleton.mp h]; decide
  unfold HasPrefix
  rw [List.isPrefixOf_iff_prefix, ToUpper_ascii t key hk, h3, ← hk1]
  have hsplit : k1 ++ 0x3D :: val = (k1 ++ [0x3D]) ++ val := by simp
  have hmap : (k1 ++ [0x3D]).map upperByte = k1.map upperByte ++ [0x3D] := by
    rw [List.map_append]; rfl
  by_cases hv : (k1 ++ 0x3D :: val).all (fun c => decide (c < 0x80)) = true
  · have : ToUpper t (k1 ++ 0x3D :: val) = (k1 ++ 0x3D :: val).map upperByte := by
      unfold ToUpper; rw [if_pos hv]
    rw [this, hsplit, List.map_append, hmap]
    exact List.prefix_append _ _
  · have : ToUpper t (k1 ++ 0x3D :: val) = Map (unicodeToUpper t) (k1 ++ 0x3D :: val) := by
      unfold ToUpper; rw [if_neg hv]
    rw [this, hsplit]
    unfold Map
    rw [mapRunes_ascii_append t _ val hk1a, hmap]
    exact List.prefix_append _ _

theorem extractLoop_skip (t : Nat → Nat) (key : GoString) (pre rest : List GoString)
    (hpre : ∀ c ∈ pre, HasPrefix (ToUpper t c) (ToUpper t key ++ bytes "=") = false) :
    extractLoop t key (pre ++ rest) = extractLoop t key rest := by
  induction pre with
  | nil => rfl
  | cons c cs ih =>
    have hc := hpre c (List.mem_cons_self c cs)
    rw [List.cons_append, extractLoop, if_neg (by rw [hc]; exact Bool.false_ne_true)]
    exact ih (fun d hd => hpre d (List.mem_cons_of_mem c hd))

/-- C17, as stated, fails: for the key "uid" (n = 3) and the value "uid=abc"
the result is "=abc", that is the last n-3 = 0 characters of the key followed
by "=abc", and not the last n-2 = 1 characters of the key ("d") followed by
"=abc". -/
theorem long_key_result_is_not_last_n_minus_two :
    ¬ (∀ (t : Nat → Nat) (key v k1 val : GoString) (pre post : List GoString),
        (∀ x ∈ key, x < 0x80) → 2 < key.length →
        Split v 0x2C = pre ++ (k1 ++ 0x3D :: val) :: post →
        k1.map upperByte = key.map upperByte →
        (∀ c ∈ pre, HasPrefix (ToUpper t c) (ToUpper t key ++ bytes "=") = false) →
        extractUserGroupFrom t v key
          = some (k1.drop (k1.length - (key.length - 2)) ++ 0x3D :: val)) := by
  intro h
  have h1 := h id (bytes "uid") (bytes "uid=abc") (bytes "uid") (bytes "abc") [] []
    (by decide) (by decide) (by decide) rfl (by intro c hc; cases hc)
  revert h1
  decide

/-- C17, amended: for an ASCII key of length n greater than 2 and a value whose
leftmost component passing the comparison has the form key=val (the key in any
letter case), `extractUserGroupFrom` returns that component with its first 3
bytes removed, which is the last n-3 characters of the key as written,
followed by "=" and val, and so is not val itself; the key "uid" on "uid=abc"
gives "=abc". -/
theorem long_key_loses_three_bytes (t : Nat → Nat) (key v k1 val : GoString)
    (pre post : List GoString)
    (hk : ∀ x ∈ key, x < 0x80) (hn : 2 < key.length)
    (hsplit : Split v 0x2C = pre ++ (k1 ++ 0x3D :: val) :: post)
    (hk1 : k1.map upperByte = key.map upperByte)
    (hpre : ∀ c ∈ pre, HasPrefix (ToUpper t c) (ToUpper t key ++ bytes "=") = false) :
    extractUserGroupFrom t v key = some ((k1 ++ 0x3D :: val).drop 3)
    ∧ (k1 ++ 0x3D :: val).drop 3 = k1.drop (k1.length - (key.length - 3)) ++ 0x3D :: val
    ∧ (k1.drop (k1.length - (key.length - 3))).length = key.length - 3
    ∧ extractUserGroupFrom t v key ≠ some val
    ∧ extractUserGroupFrom t (bytes "uid=abc") (bytes "uid") = some (bytes "=abc") := by
  have hlen : k1.length = key.length := by
    have := congrArg List.length hk1
    rwa [List.length_map, List.length_map] at this
  have hres : extractUserGroupFrom t v key = some ((k1 ++ 0x3D :: val).drop 3) := by
    unfold extractUserGroupFrom
    rw [hsplit, extractLoop_skip t key pre _ hpre, extractLoop,
      if_pos (key_form_matches t key k1 val hk hk1)]
    unfold sliceFrom
    rw [if_pos (by rw [List.length_append, List.length_cons]; omega)]
  have hdrop : (k1 ++ 0x3D :: val).drop 3 = k1.drop 3 ++ 0x3D :: val := by
    rw [List.drop_append_of_le_length (by omega)]
  have hidx : k1.length - (key.length - 3) = 3 := by omega
  refine ⟨hres, ?_, ?_, ?_, rfl⟩
  · rw [hidx, hdrop]
  · rw [hidx, List.length_drop]; omega
  · rw [hres, hdrop]
    intro heq
    have := congrArg List.length (Option.some.inj heq)
    rw [List.length_append, List.length_cons] at this
    omega

theorem long_key_loses_three_bytes_witness :
    extractUserGroupFrom id (bytes "OU=X,uid=abc") (bytes "uid")
        = some ((bytes "uid" ++ 0x3D :: bytes "abc").drop 3)
    ∧ (bytes "uid" ++ 0x3D :: bytes "abc").drop 3
        = (bytes "uid").drop ((bytes "uid").length - ((bytes "uid").length - 3))
            ++ 0x3D :: bytes "abc"
    ∧ ((bytes "uid").drop ((bytes "uid").length - ((bytes "uid").length - 3))).length
        = (bytes "uid").length - 3
    ∧ extractUserGroupFrom id (bytes "OU=X,uid=abc") (bytes "uid") ≠ some (bytes "abc")
    ∧ extractUserGroupFrom id (bytes "uid=abc") (bytes "uid") = some (bytes "=abc") :=
  long_key_loses_three_bytes id (bytes "uid") (bytes "OU=X,uid=abc") (bytes "uid") (bytes "abc")
    [bytes "OU=X"] [] (by decide) (by decide) (by decide) rfl (by decide)


/-! ## Lemmas: when the slice runs out of range -/

theorem sep_not_mem_Split (sep : Nat) : ∀ (v c : GoString), c ∈ Split v sep → sep ∉ c := by
  intro v
  induction v with
  | nil =>
    intro c hc
    have : c = [] := by simpa [Split] using hc
    rw [this]
    exact List.not_mem_nil sep
  | cons b bs ih =>
    intro c hc
    unfold Split at hc
    by_cases hb : b = sep
    · rw [if_pos hb] at hc
      rcases List.mem_cons.mp hc with h0 | h1
      · rw [h0]; exact List.not_mem_nil sep
      · exact ih c h1
    · rw [if_neg hb] at hc
      cases hs : Split bs sep with
      | nil =>
        rw [hs] at hc
        have : c = [b] := by simpa using hc
        rw [this]
        intro hm
        exact hb (List.mem_singleton.mp hm).symm
      | cons w ws =>
        rw [hs] at hc
        rcases List.mem_cons.mp hc with h0 | h1
        · rw [h0]
          intro hm
          rcases List.mem_cons.mp hm with h2 | h2
          · exact hb h2.symm
          · exact ih w (by rw [hs]; exact List.mem_cons_self w ws) h2
        · exact ih c (by rw [hs]; exact List.mem_cons_of_mem w h1)

theorem upperByte_eq_comma {c : Nat} (h : upperByte c = 0x2C) : c = 0x2C := by
  unfold upperByte at h; split at h <;> omega

theorem EncodeRune_singleton (r y : Nat) (h : EncodeRune r = [y]) : r = y := by
  unfold EncodeRune at h
  split_ifs at h <;> simp at h
  exact h

theorem DecodeRune_ascii (b : Nat) (bs : GoString) (h : (DecodeRune b bs).1 ≤ 0x7F) :
    (DecodeRune b bs).1 = b := by
  unfold DecodeRune at h ⊢
  unfold RuneError at h
  by_cases h0 : b < 0x80
  · rw [if_pos h0]
  · rw [if_neg h0] at h
    exfalso
    split_ifs at h
    all_goals (try split at h)
    all_goals (try split_ifs at h)
    all_goals (try simp only [inRange, Bool.and_eq_true, decide_eq_true_eq] at *)
    all_goals omega

/-- With a case table that sends no non-ASCII rune to a comma (as Go's does),
a component without a comma never passes the comparison for the key ",". -/
theorem comma_key_never_matches (t : Nat → Nat) (ht : ∀ r, 0x7F < r → t r ≠ 0x2C)
    (comp : GoString) (hc : 0x2C ∉ comp) :
    HasPrefix (ToUpper t comp) (ToUpper t [0x2C] ++ bytes "=") = false := by
  have hkey : ToUpper t [0x2C] ++ bytes "=" = [0x2C, 0x3D] := rfl
  rw [hkey]
  cases hb : HasPrefix (ToUpper t comp) [0x2C, 0x3D] with
  | false => rfl
  | true =>
    exfalso
    unfold HasPrefix at hb
    have hp : [0x2C, 0x3D] <+: ToUpper t comp := List.isPrefixOf_iff_prefix.mp hb
    cases comp with
    | nil =>
      have : ToUpper t [] = [] := rfl
      rw [this] at hp
      exact absurd (List.prefix_nil.mp hp) (by simp)
    | cons b bs =>
      have hb0 : b ≠ 0x2C := fun h => hc (h ▸ List.mem_cons_self b bs)
      by_cases hv : (b :: bs).all (fun c => decide (c < 0x80)) = true
      · have hT : ToUpper t (b :: bs) = (b :: bs).map upperByte := by
          unfold ToUpper; rw [if_pos hv]
        rw [hT, List.map_cons] at hp
        exact hb0 (upperByte_eq_comma (List.cons_prefix_cons.mp hp).1.symm)
      · have hT : ToUpper t (b :: bs)
            = EncodeRune (unicodeToUpper t (DecodeRune b bs).1)
              ++ mapRunes (unicodeToUpper t) ((DecodeRune b bs).2 - 1) bs := by
          unfold ToUpper; rw [if_neg hv]; rfl
        rw [hT] at hp
        cases he : EncodeRune (unicodeToUpper t (DecodeRune b bs).1) with
        | nil => exact absurd he (EncodeRune_ne_nil _)
        | cons e0 es =>
          rw [he, List.cons_append] at hp
          have he0 : e0 = 0x2C := (List.cons_prefix_cons.mp hp).1.symm
          have hes : es = [] := EncodeRune_ascii_head _ e0 es he (by omega)
          rw [hes, he0] at he
          have hr := EncodeRune_singleton _ _ he
          unfold unicodeToUpper at hr
          by_cases hle : (DecodeRune b bs).1 ≤ 0x7F
          · rw [if_pos hle] at hr
            have := upperByte_eq_comma hr
            rw [DecodeRune_ascii b bs hle] at this
            exact hb0 this
          · rw [if_neg hle] at hr
            exact ht _ (by omega) hr

theorem comma_key_returns_empty (t : Nat → Nat) (ht : ∀ r, 0x7F < r → t r ≠ 0x2C)
    (v : GoString) : extractUserGroupFrom t v [0x2C] = some [] := by
  unfold extractUserGroupFrom
  have h := extractLoop_skip t [0x2C] (Split v 0x2C) []
    (fun c hc => comma_key_never_matches t ht c (sep_not_mem_Split 0x2C v c hc))
  rw [List.append_nil] at h
  rw [h]
  rfl

theorem short_key_panics (t : Nat → Nat) (k : GoString) (hk : ∀ x ∈ k, x < 0x80)
    (hlen : k.length < 2) (hcomma : k ≠ [0x2C]) :
    extractUserGroupFrom t (k ++ [0x3D]) k = none := by
  cases k with
  | nil => rfl
  | cons c rest =>
    cases rest with
    | cons d ds => simp at hlen; omega
    | nil =>
      have hc : c ≠ 0x2C := fun h => hcomma (by rw [h])
      have hc80 : c < 0x80 := hk c (List.mem_singleton_self c)
      have hs : Split ([c] ++ [0x3D]) 0x2C = [[c, 0x3D]] := by
        show Split (c :: [0x3D]) 0x2C = _
        unfold Split
        rw [if_neg hc]
        rfl
      have hv : ∀ x ∈ [c, 0x3D], x < 0x80 := by
        intro x hx
        rcases List.mem_cons.mp hx with h | h
        · rw [h]; exact hc80
        · rw [List.mem_singleton.mp h]; decide
      have hm : HasPrefix (ToUpper t [c, 0x3D]) (ToUpper t [c] ++ bytes "=") = true := by
        rw [ToUpper_ascii t _ hv, ToUpper_ascii t [c] hk]
        unfold HasPrefix
        rw [List.isPrefixOf_iff_prefix]
        exact ⟨[], by rfl⟩
      unfold extractUserGroupFrom
      rw [hs, extractLoop, if_pos hm]
      rfl

theorem caseTableSample_no_comma : ∀ r, 0x7F < r → caseTableSample r ≠ 0x2C := by
  intro r hr
  unfold caseTableSample
  split_ifs <;> omega

/-- C18, as stated, fails: the key "," has one character, yet no component of
a value split on commas can match it, so `extractUserGroupFrom` returns (the
empty string) for every attribute value and no slice runs out of range. -/
theorem comma_key_always_returns :
    ¬ (∀ k : GoString, (∀ x ∈ k, x < 0x80) →
        ((∀ v : GoString, ∃ g, extractUserGroupFrom caseTableSample v k = some g)
          ↔ 2 ≤ k.length)) := by
  intro h
  have h1 := (h (bytes ",") (by decide)).mp
    (fun v => ⟨[], comma_key_returns_empty caseTableSample caseTableSample_no_comma v⟩)
  revert h1
  decide

/-- C18, amended: for an ASCII key `k` (and a case table that, like Go's, sends
no non-ASCII rune to a comma), `extractUserGroupFrom` returns for every
attribute value exactly when `k` has at least two characters or is the single
character ",": for keys of length 2 or more every matching component is at
least 3 bytes long; for the empty key and for a one-character key other than
"," the value made of the key followed by "=" makes the 3-byte slice run out
of range (key "o" with value "o="). -/
theorem slice_in_range_iff_long_or_comma_key (t : Nat → Nat) (k : GoString)
    (hk : ∀ x ∈ k, x < 0x80) (ht : ∀ r, 0x7F < r → t r ≠ 0x2C) :
    ((∀ v : GoString, ∃ g, extractUserGroupFrom t v k = some g)
        ↔ (2 ≤ k.length ∨ k = bytes ","))
    ∧ (2 ≤ k.length → ∀ v : GoString,
        HasPrefix (ToUpper t v) (ToUpper t k ++ bytes "=") = true → 3 ≤ v.length)
    ∧ (k.length < 2 → k ≠ bytes "," → extractUserGroupFrom t (k ++ bytes "=") k = none)
    ∧ extractUserGroupFrom t (bytes "o=") (bytes "o") = none := by
  have hcomma : bytes "," = [0x2C] := rfl
  have heq : bytes "=" = [0x3D] := rfl
  refine ⟨⟨?_, ?_⟩, ?_, ?_, rfl⟩
  · intro hall
    by_cases h2 : 2 ≤ k.length
    · exact Or.inl h2
    · right
      by_contra hne
      obtain ⟨g, hg⟩ := hall (k ++ [0x3D])
      rw [short_key_panics t k hk (by omega) (by rw [← hcomma]; exact hne)] at hg
      exact Option.noConfusion hg
  · rintro (h2 | hc) v
    · exact extractUserGroupFrom_returns t k hk h2 v
    · rw [hc, hcomma]
      exact ⟨[], comma_key_returns_empty t ht v⟩
  · intro h2 v hm
    exact matching_component_length t k v hk h2 hm
  · intro h2 hne
    rw [heq]
    exact short_key_panics t k hk h2 (by rw [← hcomma]; exact hne)

theorem slice_in_range_iff_long_or_comma_key_witness :
    ((∀ v : GoString, ∃ g, extractUserGroupFrom caseTableSample v (bytes "o") = some g)
        ↔ (2 ≤ (bytes "o").length ∨ bytes "o" = bytes ","))
    ∧ (2 ≤ (bytes "o").length → ∀ v : GoString,
        HasPrefix (ToUpper caseTableSample v) (ToUpper caseTableSample (bytes "o") ++ bytes "=")
          = true → 3 ≤ v.length)
    ∧ ((bytes "o").length < 2 → bytes "o" ≠ bytes "," →
        extractUserGroupFrom caseTableSample (bytes "o" ++ bytes "=") (bytes "o") = none)
    ∧ extractUserGroupFrom caseTableSample (bytes "o=") (bytes "o") = none :=
  slice_in_range_iff_long_or_comma_key caseTableSample (bytes "o") (by decide)
    caseTableSample_no_comma

end FlyteLdap
